import Mathlib

/-!
Verification of the dry2-iaas configuration store and environment lifecycle.

The development shallowly embeds the Python sources under `src/dry2/`:
pure data (size profiles, region table, project records) becomes Lean
structures; the on-disk state that the commands read and mutate becomes an
explicit `FS` value (a list of directories and a list of files) threaded
through each command; subprocess invocations of the external `terraform`
binary become oracle parameters recording whether each invocation succeeds,
since the binary's own behaviour is outside this repository.

Path conventions: paths are lists of components.  The configuration root
(the directory holding `.dry2/`) is the empty path, so the projects
directory of `Config` (`src/dry2/utils/config.py`) is `[".dry2",
"projects"]`; the user's home directory is modelled as the reserved root
component `"HOME"`, so kubeconfig artifacts live under `["HOME", ".kube"]`.
The `Config` constructor's parent-directory walk that discovers the root is
not modelled (every command resolves to the same root within one run).
Rendered template contents (`main.tf`, `values.yaml`, workflow files, the
quick-reference document) are opaque to every claim, so their file data is
the opaque constructor `FileData.blob`; YAML (de)serialisation of the
project record by `yaml.dump` / `yaml.safe_load` is taken as faithful, so a
`config.yaml` stores the record itself.
-/

namespace Dry2

/-- A filesystem path, as a list of components relative to the config root. -/
abbrev FsPath := List String

/-- One environment entry of a project record: `{branch, profile}`
(`config.yaml` schema used in `src/dry2/commands/init.py` and `env.py`). -/
structure EnvEntry where
  branch : String
  profile : String
deriving DecidableEq

/-- A project record, as stored in `config.yaml`.  Python represents it as an
open dict; the fields below are exactly the keys the sources read or write,
each optional because a key may be absent (`dict.get`). -/
structure ProjectRecord where
  name : Option String := none
  github_repo : Option String := none
  region : Option String := none
  upstash_region : Option String := none
  domains : Option (List (String × String)) := none
  environments : Option (List (String × EnvEntry)) := none
  credentials : Option (List (String × String)) := none
deriving DecidableEq

/-- The record that `load_project_config` returns when no config file exists
(`return {}` in `src/dry2/utils/config.py`). -/
def emptyRecord : ProjectRecord := {}

/-- Contents of a file.  Rendered templates are opaque (`blob`); the project
YAML stores the record itself; plain text files store their text. -/
inductive FileData where
  | yamlConfig (r : ProjectRecord)
  | blob
  | text (s : String)
deriving DecidableEq

/-- The modelled filesystem: the set of directories (insertion-ordered,
duplicate-free when built by `addDir`) and the files with their data. -/
structure FS where
  dirs : List FsPath
  files : List (FsPath × FileData)
deriving DecidableEq

/-- Look up a file's data. -/
def fileLookup (fs : FS) (p : FsPath) : Option FileData :=
  fs.files.lookup p

/-- `Path.exists()`: true for a directory or a file. -/
def pathExists (fs : FS) (p : FsPath) : Bool :=
  decide (p ∈ fs.dirs) || (fileLookup fs p).isSome

/-- Add one directory if absent (a single `mkdir(exist_ok=True)` level). -/
def addDir (fs : FS) (p : FsPath) : FS :=
  if p ∈ fs.dirs then fs else { fs with dirs := fs.dirs ++ [p] }

/-- `mkdir(parents=True, exist_ok=True)`: create the directory and all its
ancestors. -/
def mkdirP (fs : FS) (p : FsPath) : FS :=
  (p.inits.filter (fun q => !q.isEmpty)).foldl addDir fs

/-- Write a file, replacing any previous data at that path (`open(p, "w")`,
`write_text`). -/
def writeFile (fs : FS) (p : FsPath) (d : FileData) : FS :=
  { fs with files := (p, d) :: fs.files.filter (fun e => e.1 != p) }

/-- `Path.unlink()` on a file. -/
def unlinkFile (fs : FS) (p : FsPath) : FS :=
  { fs with files := fs.files.filter (fun e => e.1 != p) }

/-- Does `pre` stand at the start of `p` (so `p` is inside the tree rooted
at `pre`)? -/
def underPath (pre p : FsPath) : Bool :=
  p.take pre.length == pre

/-- `shutil.rmtree`: remove the directory and everything below it.  (Also
used for a single file: removing every path in the file's own "tree" removes
exactly that file, matching the unlink branch in `destroy.py`.) -/
def removeTree (fs : FS) (p : FsPath) : FS :=
  { dirs := fs.dirs.filter (fun d => !underPath p d),
    files := fs.files.filter (fun e => !underPath p e.1) }

/-- `name.startswith(".")`: does the first character exist and equal a dot?
(Implemented over the character list so that concrete instances reduce.) -/
def startsWithDot (s : String) : Bool :=
  match s.toList with
  | [] => false
  | c :: _ => c == '.'

/-- Names of the immediate subdirectories of `p` (`iterdir()` restricted to
`is_dir()` entries), in the filesystem's enumeration order. -/
def childDirs (fs : FS) (p : FsPath) : List String :=
  fs.dirs.filterMap (fun d => if d ≠ [] ∧ d.dropLast = p then d.getLast? else none)

/-! ### The configuration store (`src/dry2/utils/config.py`) -/

/-- `Config.projects_dir = project_root / ".dry2" / "projects"`. -/
def projectsDir : FsPath := [".dry2", "projects"]

/-- The directory of one project. -/
def projectDir (project : String) : FsPath := projectsDir ++ [project]

/-- `Config.get_env_dir`. -/
def get_env_dir (project environment : String) : FsPath :=
  projectsDir ++ [project, environment]

/-- Per-user kubeconfig artifact path: `Path.home() / ".kube" /
("config-" + project + "-" + environment)`. -/
def kubeconfigPath (project environment : String) : FsPath :=
  ["HOME", ".kube", "config-" ++ project ++ "-" ++ environment]

/-- `Config.list_projects`: subdirectories of the projects directory whose
name does not start with a dot. -/
def list_projects (fs : FS) : List String :=
  if !pathExists fs projectsDir then []
  else (childDirs fs projectsDir).filter (fun n => !startsWithDot n)

/-- `Config.list_environments`: subdirectories of the project directory whose
name does not start with a dot and which contain the `main.tf` marker. -/
def list_environments (fs : FS) (project : String) : List String :=
  if !pathExists fs (projectDir project) then []
  else (childDirs fs (projectDir project)).filter
    (fun n => !startsWithDot n && pathExists fs (get_env_dir project n ++ ["main.tf"]))

/-- `Config.load_project_config`: the stored record, or `{}` when the config
file is absent.  (A config file holding data that is not a YAML mapping of
the project schema is outside the commands' use and is read as `{}`.) -/
def load_project_config (fs : FS) (project : String) : ProjectRecord :=
  match fileLookup fs (projectDir project ++ ["config.yaml"]) with
  | some (.yamlConfig r) => r
  | _ => emptyRecord

/-- `Config.save_project_config`: create the project directory, then write
the record as `config.yaml` (full overwrite). -/
def save_project_config (fs : FS) (project : String) (r : ProjectRecord) : FS :=
  writeFile (mkdirP fs (projectDir project)) (projectDir project ++ ["config.yaml"]) (.yamlConfig r)

/-- `Config.ensure_project_structure`. -/
def ensure_project_structure (fs : FS) : FS :=
  addDir (addDir (addDir fs [".dry2"]) projectsDir) ["helm"]

/-- Valid project name per the spec's data model: non-empty, lowercase
alphanumeric plus hyphens. -/
def validProjectName (s : String) : Bool :=
  s ≠ "" && s.toList.all (fun c => ('a' ≤ c && c ≤ 'z') || c.isDigit || c == '-')

/-! ### Fixed reference data (`src/dry2/utils/config.py`) -/

/-- One size profile row of the `NODE_SIZES` table. -/
structure SizeProfile where
  size : String
  count : Nat
  media_gb : Nat
  static_gb : Nat
  redis_mb : Nat
  min_replicas : Nat
  max_replicas : Nat
deriving DecidableEq

/-- The fixed `NODE_SIZES` table. -/
def NODE_SIZES : List (String × SizeProfile) :=
  [("small", ⟨"g4s.kube.small", 2, 50, 20, 256, 1, 3⟩),
   ("medium", ⟨"g4s.kube.medium", 3, 100, 30, 512, 2, 5⟩),
   ("large", ⟨"g4s.kube.large", 5, 500, 100, 1024, 3, 15⟩)]

/-- The fixed `REGIONS` table, reduced to the `upstash` column (the display
name column is only printed). -/
def REGIONS : List (String × String) :=
  [("NYC1", "us-east-1"), ("LON1", "eu-west-1"),
   ("FRA1", "eu-central-1"), ("PHX1", "us-west-1")]

/-- Python `dict.pop`-free insert: overwrite the value when the key is
present, otherwise append the pair (insertion order, as Python dicts do). -/
def dictInsert {α : Type} (k : String) (v : α) (d : List (String × α)) : List (String × α) :=
  if (d.lookup k).isSome then d.map (fun e => if e.1 = k then (k, v) else e)
  else d ++ [(k, v)]

/-- Python `del d[k]`. -/
def dictRemove {α : Type} (k : String) (d : List (String × α)) : List (String × α) :=
  d.filter (fun e => e.1 != k)

/-! ### JSON values and the Terraform output adapter
(`src/dry2/utils/terraform.py`) -/

/-- JSON values, as produced by `json.loads`. -/
inductive Json where
  | null
  | bool (b : Bool)
  | num (n : Int)
  | str (s : String)
  | arr (elems : List Json)
  | obj (kvs : List (String × Json))

/-- `v["value"]` under the try/except of `get_outputs`: a JSON object yields
its `value` entry when present; a missing key (KeyError) or a non-object
subscript (TypeError) yields nothing. -/
def getValueField : Json → Option Json
  | .obj kvs => kvs.lookup "value"
  | _ => none

/-- The dict comprehension `{k: v["value"] for k, v in outputs.items()}`:
all entries must yield a `value` field, otherwise the raised error aborts
the whole comprehension. -/
def extractOutputs : List (String × Json) → Option (List (String × Json))
  | [] => some []
  | (k, v) :: rest =>
    match getValueField v, extractOutputs rest with
    | some w, some tail => some ((k, w) :: tail)
    | _, _ => none

/-- `Terraform.get_outputs`.  The argument is the combined result of the
`terraform output -json` subprocess and `json.loads` on its stdout:
`.error` covers a missing binary, a non-zero exit and malformed JSON, all of
which raise inside the `try` block.  A parsed value that is not an object
makes `.items()` raise; any entry whose value lacks a `value` field raises
in the comprehension; the bare `except` turns every raise into `{}`. -/
def get_outputs (res : Except Unit Json) : List (String × Json) :=
  match res with
  | .error _ => []
  | .ok (.obj kvs) => (extractOutputs kvs).getD []
  | .ok _ => []

theorem extractOutputs_eq_map (kvs : List (String × Json))
    (h : ∀ kv ∈ kvs, (getValueField kv.2).isSome) :
    extractOutputs kvs = some (kvs.map (fun kv => (kv.1, (getValueField kv.2).getD .null))) := by
  induction kvs with
  | nil => rfl
  | cons hd tl ih =>
    obtain ⟨k, v⟩ := hd
    have hhd := h (k, v) (List.mem_cons_self _ _)
    have htl := ih (fun kv hkv => h kv (List.mem_cons_of_mem _ hkv))
    obtain ⟨w, hw⟩ := Option.isSome_iff_exists.mp hhd
    simp only [extractOutputs, htl, hw]
    simp [hw]

theorem extractOutputs_eq_none (kvs : List (String × Json)) (kv : String × Json)
    (hmem : kv ∈ kvs) (hnone : getValueField kv.2 = none) :
    extractOutputs kvs = none := by
  induction kvs with
  | nil => cases hmem
  | cons hd tl ih =>
    rcases List.mem_cons.mp hmem with heq | hmem'
    · subst heq
      obtain ⟨k, v⟩ := kv
      simp only [extractOutputs]
      simp only at hnone
      rw [hnone]
    · obtain ⟨k, v⟩ := hd
      simp only [extractOutputs, ih hmem']
      cases getValueField v <;> rfl

/-- Claim C5: `get_outputs` is total and never raises — a failed invocation
or malformed JSON yields the empty mapping, a parsed non-object yields the
empty mapping, and a well-formed object is mapped to
`{key → entry["value"]}` entry-wise (an object with any entry lacking a
`value` field also yields the empty mapping, via the same blanket catch). -/
theorem get_outputs_never_raises (res : Except Unit Json) :
    (∀ e, res = .error e → get_outputs res = []) ∧
    (∀ j, res = .ok j → (∀ kvs, j ≠ Json.obj kvs) → get_outputs res = []) ∧
    (∀ kvs, res = .ok (.obj kvs) →
      ((∀ kv ∈ kvs, (getValueField kv.2).isSome) →
        get_outputs res = kvs.map (fun kv => (kv.1, (getValueField kv.2).getD .null))) ∧
      (∀ kv ∈ kvs, getValueField kv.2 = none → get_outputs res = [])) := by
  refine ⟨fun e he => by subst he; rfl, fun j hj hnotobj => ?_, fun kvs hkvs => ?_⟩
  · subst hj
    cases j with
    | obj kvs => exact absurd rfl (hnotobj kvs)
    | null => rfl
    | bool b => rfl
    | num n => rfl
    | str s => rfl
    | arr elems => rfl
  · subst hkvs
    constructor
    · intro hall
      simp [get_outputs, extractOutputs_eq_map kvs hall]
    · intro kv hmem hnone
      simp [get_outputs, extractOutputs_eq_none kvs kv hmem hnone]

/-- Witness for C5: a failing invocation yields `{}`; a well-formed object
with a `kubeconfig` output is flattened to its `value` fields. -/
theorem get_outputs_never_raises_witness :
    get_outputs (.error ()) = [] ∧
    get_outputs (.ok (.obj [("kubeconfig", .obj [("value", .str "KC"), ("sensitive", .bool true)]),
                            ("cluster_ip", .obj [("value", .str "10.0.0.1")])])) =
      [("kubeconfig", .str "KC"), ("cluster_ip", .str "10.0.0.1")] ∧
    get_outputs (.ok (.str "not json output")) = [] ∧
    get_outputs (.ok (.obj [("broken", .arr [])])) = [] := by
  refine ⟨(get_outputs_never_raises (.error ())).1 () rfl, ?_, ?_, ?_⟩
  · have h := ((get_outputs_never_raises (.ok (.obj
      [("kubeconfig", .obj [("value", .str "KC"), ("sensitive", .bool true)]),
       ("cluster_ip", .obj [("value", .str "10.0.0.1")])]))).2.2 _ rfl).1
    rw [h]
    · rfl
    · intro kv hkv
      rcases List.mem_cons.mp hkv with h1 | h2
      · rw [h1]; rfl
      · rcases List.mem_cons.mp h2 with h3 | h4
        · rw [h3]; rfl
        · cases h4
  · exact (get_outputs_never_raises (.ok (.str "not json output"))).2.1 _ rfl
      (fun kvs h => by cases h)
  · exact ((get_outputs_never_raises (.ok (.obj [("broken", .arr [])]))).2.2 _ rfl).2
      ("broken", .arr []) (List.mem_cons_self _ _) rfl

/-! ### Command outcomes -/

/-- The error taxonomy surfaced by the commands (each is a printed message
followed by `typer.Exit(1)`). -/
inductive CmdError where
  | notFound
  | alreadyExists
  | invalidProfile
  | protectedEnv
  | destroyFailed
deriving DecidableEq

/-- How a command run ends: normal exit 0, a user-declined confirmation
(`typer.Exit(0)`), a typed error (`typer.Exit(1)`), or an unhandled Python
exception escaping the command. -/
inductive Outcome where
  | ok
  | cancelled
  | err (e : CmdError)
  | crash
deriving DecidableEq

/-- Result of a command: its outcome and the filesystem afterwards. -/
structure CmdResult where
  outcome : Outcome
  fs : FS
deriving DecidableEq

/-! ### Template materialisation (`src/dry2/utils/templates.py`);
rendered contents are opaque blobs. -/

/-- `create_terraform_files`: render the four Terraform files into the
environment directory (each render creates the parent directory first, as
`render_to_file` does). -/
def create_terraform_files (fs : FS) (dir : FsPath) : FS :=
  ["main.tf", "variables.tf", "outputs.tf", "terraform.tfvars"].foldl
    (fun acc f => writeFile (mkdirP acc dir) (dir ++ [f]) .blob) fs

/-- `create_helm_values`: render `values.yaml` at the given path. -/
def create_helm_values (fs : FS) (outPath : FsPath) : FS :=
  writeFile (mkdirP fs outPath.dropLast) outPath .blob

/-! ### `env add` (`src/dry2/commands/env.py`, `add_environment`) -/

/-- Answers the command would gather interactively. -/
structure AddEnvPrompts where
  branchAnswer : String
  domainAnswer : String
  confirmCreate : Bool
  confirmApply : Bool

/-- Results of the Terraform subprocess invocations the deploy branch makes,
plus the parsed `output -json` result consumed by `get_outputs`. -/
structure TfRuns where
  initOk : Bool
  planOk : Bool
  applyOk : Bool
  outputsRes : Except Unit Json

/-- `add_environment`.  Checks run in source order: unknown project, name
already present, invalid size; then prompts, the confirmation, directory
creation, template materialisation, the record update and the optional
deploy.  The `--deploy` branch wraps every Terraform call in a `try` whose
handler only prints, so a failing init/plan/apply still ends the command
with exit 0.  When the project has no environment at all, the
credential-source lookup `config.list_environments(project_name)[0]`
raises `IndexError` (line 126), which no handler catches. -/
def add_environment (fs : FS) (project environment size : String)
    (branchOpt domainOpt : Option String) (deploy : Bool)
    (prompts : AddEnvPrompts) (tf : TfRuns) : CmdResult :=
  if project ∉ list_projects fs then ⟨.err .notFound, fs⟩
  else if environment ∈ list_environments fs project then ⟨.err .alreadyExists, fs⟩
  else
    match NODE_SIZES.lookup size with
    | none => ⟨.err .invalidProfile, fs⟩
    | some _profile =>
      let project_config := load_project_config fs project
      let branch := branchOpt.getD prompts.branchAnswer
      let domain := domainOpt.getD prompts.domainAnswer
      if !prompts.confirmCreate then ⟨.cancelled, fs⟩
      else
        let edir := get_env_dir project environment
        let fs1 := mkdirP fs edir
        -- credential source selection (line 126): indexing an empty
        -- environment list raises IndexError
        let envs := list_environments fs1 project
        if envs.isEmpty then ⟨.crash, fs1⟩
        else
          let _source_env := if envs.contains "dev" then "dev" else envs.headD ""
          let fs2 := create_terraform_files fs1 edir
          let fs3 := create_helm_values fs2 (edir ++ ["values.yaml"])
          let pc := { project_config with
            environments := some (dictInsert environment ⟨branch, size⟩
              (project_config.environments.getD [])),
            domains := some (dictInsert environment domain
              (project_config.domains.getD [])) }
          let fs4 := save_project_config fs3 project pc
          if !deploy then ⟨.ok, fs4⟩
          else
            let fs5 := mkdirP fs4 edir   -- Terraform(env_dir) constructor
            if !tf.initOk then ⟨.ok, fs5⟩
            else if !tf.planOk then ⟨.ok, fs5⟩
            else if !prompts.confirmApply then ⟨.ok, fs5⟩
            else if !tf.applyOk then ⟨.ok, fs5⟩
            else
              match (get_outputs tf.outputsRes).lookup "kubeconfig" with
              | some (.str s) =>
                ⟨.ok, writeFile (mkdirP fs5 ["HOME", ".kube"])
                  (kubeconfigPath project environment) (.text s)⟩
              | some _ => ⟨.ok, fs5⟩  -- write_text on a non-string raises, caught
              | none => ⟨.ok, fs5⟩

/-! ### `env remove` (`src/dry2/commands/env.py`, `remove_environment`) -/

/-- `remove_environment`.  The not-found check precedes the protected-name
check; a present state file only produces a warning; the directory is then
removed recursively and both record entries are dropped. -/
def remove_environment (fs : FS) (project environment : String)
    (force confirmRemove : Bool) : CmdResult :=
  if environment ∉ list_environments fs project then ⟨.err .notFound, fs⟩
  else if environment ∈ (["dev", "production"] : List String) then ⟨.err .protectedEnv, fs⟩
  else if ¬force ∧ ¬confirmRemove then ⟨.cancelled, fs⟩
  else
    let fs1 := removeTree fs (get_env_dir project environment)
    let pc := load_project_config fs1 project
    let pc := { pc with
      environments := pc.environments.map (dictRemove environment),
      domains := pc.domains.map (dictRemove environment) }
    ⟨.ok, save_project_config fs1 project pc⟩

/-! ### `destroy` (`src/dry2/commands/destroy.py`) -/

/-- The four state artifacts removed when `--keep-config` is off. -/
def stateArtifacts : List String :=
  ["terraform.tfstate", "terraform.tfstate.backup", ".terraform", ".terraform.lock.hcl"]

/-- The `keep_config=False` cleanup loop body: remove each listed artifact
that exists (a directory recursively, a file by unlink — `removeTree`
covers both). -/
def removeArtifacts (edir : FsPath) : FS → List String → FS
  | fs, [] => fs
  | fs, f :: rest =>
    removeArtifacts edir
      (if pathExists fs (edir ++ [f]) = true then removeTree fs (edir ++ [f]) else fs) rest

/-- The `keep_config=False` cleanup over the four state artifacts. -/
def destroyCleanup (fs : FS) (edir : FsPath) : FS :=
  removeArtifacts edir fs stateArtifacts

/-- Result of `destroy_environment`: outcome, filesystem, and whether the
adapter's destroy was invoked. -/
structure DestroyEnvResult where
  outcome : Outcome
  fs : FS
  destroyInvoked : Bool
deriving DecidableEq

/-- The kubeconfig removal step after a successful destroy:
`if kubeconfig_path.exists(): kubeconfig_path.unlink()`. -/
def postDestroyKube (fs : FS) (project environment : String) : FS :=
  if pathExists fs (kubeconfigPath project environment) = true then
    unlinkFile fs (kubeconfigPath project environment)
  else fs

/-- The filesystem after a successful destroy: the `Terraform(env_dir)`
constructor created the working directory, the kubeconfig artifact was
removed if present, and with `--keep-config` off the state artifacts were
cleaned up. -/
def postDestroyFs (fs : FS) (project environment : String) (keep_config : Bool) : FS :=
  if !keep_config then
    destroyCleanup
      (postDestroyKube (mkdirP fs (get_env_dir project environment)) project environment)
      (get_env_dir project environment)
  else postDestroyKube (mkdirP fs (get_env_dir project environment)) project environment

/-- `destroy_environment`.  Unknown project / environment exit 1; a missing
state file returns success immediately without touching Terraform; the
production name demands the typed confirmation phrase, other names a yes/no
prompt; on destroy success the kubeconfig artifact is removed and, when
`--keep-config` is off, the state artifacts are removed. -/
def destroy_environment (fs : FS) (project environment : String)
    (auto_approve keep_config : Bool) (typedConfirm : String) (confirmAsk : Bool)
    (destroyOk : Bool) : DestroyEnvResult :=
  if project ∉ list_projects fs then ⟨.err .notFound, fs, false⟩
  else if environment ∉ list_environments fs project then ⟨.err .notFound, fs, false⟩
  else if !pathExists fs (get_env_dir project environment ++ ["terraform.tfstate"]) then
    ⟨.ok, fs, false⟩
  else if ¬auto_approve ∧ environment = "production" ∧ typedConfirm ≠ "destroy production" then
    ⟨.cancelled, fs, false⟩
  else if ¬auto_approve ∧ environment ≠ "production" ∧ ¬confirmAsk then
    ⟨.cancelled, fs, false⟩
  else if !destroyOk then
    -- the Terraform(env_dir) constructor has created the working directory
    ⟨.err .destroyFailed, mkdirP fs (get_env_dir project environment), true⟩
  else ⟨.ok, postDestroyFs fs project environment keep_config, true⟩

/-- The per-target console messages of `destroy_project`, in emission order.
`summary` is the shape the spec's final report would have (a closing message
listing the succeeded and the failed targets); the embedded code below never
emits it. -/
inductive DMsg where
  | skipped (env : String)
  | destroying (env : String)
  | destroyed (env : String)
  | destroyFailedOn (env : String)
  | continuingOthers
  | projectDone
  | summary (succeeded failed : List String)
deriving DecidableEq

/-- Modelled from the spec: "partial failures … are summarized at the end
listing which targets succeeded/failed" — the transcript's last message is a
summary carrying exactly those two lists. -/
def finalReportListsOutcomes (events : List DMsg) (succeeded failed : List String) : Bool :=
  match events.getLast? with
  | some (.summary s f) => s == succeeded && f == failed
  | _ => false

/-- Result of `destroy_project`: outcome, filesystem, the environments on
which the adapter's destroy ran (in order), and the emitted messages. -/
structure DestroyProjResult where
  outcome : Outcome
  fs : FS
  invocations : List String
  events : List DMsg
deriving DecidableEq

/-- The `for env in environments` loop of `destroy_project`: skip targets
without a state file, otherwise run the adapter's destroy; a failure is
printed and the loop continues. -/
def destroyProjectLoop (project : String) (destroyOk : String → Bool) :
    FS → List String → FS × List String × List DMsg
  | fs, [] => (fs, [], [])
  | fs, env :: rest =>
    if !pathExists fs (get_env_dir project env ++ ["terraform.tfstate"]) then
      ((destroyProjectLoop project destroyOk fs rest).1,
       (destroyProjectLoop project destroyOk fs rest).2.1,
       .skipped env :: (destroyProjectLoop project destroyOk fs rest).2.2)
    else if destroyOk env then
      -- the Terraform(env_dir) constructor creates the working directory
      ((destroyProjectLoop project destroyOk (mkdirP fs (get_env_dir project env)) rest).1,
       env :: (destroyProjectLoop project destroyOk
         (mkdirP fs (get_env_dir project env)) rest).2.1,
       .destroying env :: .destroyed env ::
         (destroyProjectLoop project destroyOk (mkdirP fs (get_env_dir project env)) rest).2.2)
    else
      ((destroyProjectLoop project destroyOk (mkdirP fs (get_env_dir project env)) rest).1,
       env :: (destroyProjectLoop project destroyOk
         (mkdirP fs (get_env_dir project env)) rest).2.1,
       .destroying env :: .destroyFailedOn env :: .continuingOthers ::
         (destroyProjectLoop project destroyOk (mkdirP fs (get_env_dir project env)) rest).2.2)

/-- `destroy_project`: unknown project exits 1; without `--auto-approve` the
typed phrase must equal the project name; then every environment is
processed independently and a closing fixed notice is printed. -/
def destroy_project (fs : FS) (project : String) (auto_approve : Bool)
    (typedConfirm : String) (destroyOk : String → Bool) : DestroyProjResult :=
  if project ∉ list_projects fs then ⟨.err .notFound, fs, [], []⟩
  else if ¬auto_approve ∧ typedConfirm ≠ project then ⟨.cancelled, fs, [], []⟩
  else
    ⟨.ok, (destroyProjectLoop project destroyOk fs (list_environments fs project)).1,
     (destroyProjectLoop project destroyOk fs (list_environments fs project)).2.1,
     (destroyProjectLoop project destroyOk fs (list_environments fs project)).2.2
       ++ [.projectDone]⟩

/-! ### Round-trip of the project record (claim C7) -/

theorem fileLookup_writeFile_self (fs : FS) (p : FsPath) (d : FileData) :
    fileLookup (writeFile fs p d) p = some d := by
  simp [fileLookup, writeFile]

/-- Claim C7: for every valid project name and every project record, saving
the record and loading it back under the same name returns the record that
was saved. -/
theorem save_load_round_trip (fs : FS) (project : String) (r : ProjectRecord)
    (_hv : validProjectName project = true) :
    load_project_config (save_project_config fs project r) project = r := by
  simp [load_project_config, save_project_config, fileLookup_writeFile_self]

/-- Witness for C7 at a concrete name and record. -/
theorem save_load_round_trip_witness :
    validProjectName "acme" = true ∧
      load_project_config
        (save_project_config ⟨[], []⟩ "acme"
          { name := some "acme", region := some "NYC1" }) "acme" =
        { name := some "acme", region := some "NYC1" } :=
  ⟨by decide, save_load_round_trip ⟨[], []⟩ "acme" _ (by decide)⟩

/-! ### Filesystem lemma toolkit -/

theorem files_addDir (fs : FS) (p : FsPath) : (addDir fs p).files = fs.files := by
  unfold addDir; split <;> rfl

theorem mem_dirs_addDir {q : FsPath} {fs : FS} {p : FsPath} :
    q ∈ (addDir fs p).dirs ↔ q ∈ fs.dirs ∨ q = p := by
  unfold addDir; split
  · rename_i h
    exact ⟨Or.inl, fun hq => hq.elim id (fun hqp => hqp ▸ h)⟩
  · simp [List.mem_append]

theorem files_foldl_addDir (l : List FsPath) (fs : FS) :
    (l.foldl addDir fs).files = fs.files := by
  induction l generalizing fs with
  | nil => rfl
  | cons hd tl ih => rw [List.foldl_cons, ih, files_addDir]

theorem mem_dirs_foldl_addDir {q : FsPath} (l : List FsPath) (fs : FS) :
    q ∈ (l.foldl addDir fs).dirs ↔ q ∈ fs.dirs ∨ q ∈ l := by
  induction l generalizing fs with
  | nil => simp
  | cons hd tl ih =>
    rw [List.foldl_cons, ih, mem_dirs_addDir, List.mem_cons]
    tauto

theorem files_mkdirP (fs : FS) (p : FsPath) : (mkdirP fs p).files = fs.files :=
  files_foldl_addDir _ _

theorem fileLookup_mkdirP (fs : FS) (p q : FsPath) :
    fileLookup (mkdirP fs p) q = fileLookup fs q := by
  unfold fileLookup; rw [files_mkdirP]

theorem mem_dirs_mkdirP {q : FsPath} (fs : FS) (p : FsPath) :
    q ∈ (mkdirP fs p).dirs ↔ q ∈ fs.dirs ∨ (q ∈ p.inits ∧ q ≠ []) := by
  unfold mkdirP
  rw [mem_dirs_foldl_addDir, List.mem_filter]
  simp [List.isEmpty_iff]

theorem pathExists_mkdirP_of_longer (fs : FS) (p q : FsPath) (h : p.length < q.length) :
    pathExists (mkdirP fs p) q = pathExists fs q := by
  simp only [pathExists, fileLookup_mkdirP]
  congr 1
  rw [decide_eq_decide, mem_dirs_mkdirP]
  constructor
  · rintro (hq | ⟨hin, -⟩)
    · exact hq
    · have := (List.mem_inits _ _).mp hin
      exact absurd this.length_le (by omega)
  · exact Or.inl

theorem mem_childDirs {fs : FS} {p : FsPath} {n : String} :
    n ∈ childDirs fs p ↔ p ++ [n] ∈ fs.dirs := by
  simp only [childDirs, List.mem_filterMap]
  constructor
  · rintro ⟨d, hd, hcond⟩
    split at hcond
    · rename_i hne
      obtain ⟨hdne, hdrop⟩ := hne
      rw [List.getLast?_eq_getLast d hdne] at hcond
      have hn : d.getLast hdne = n := by injection hcond
      have hdeq : d.dropLast ++ [d.getLast hdne] = d := List.dropLast_append_getLast hdne
      rw [hdrop, hn] at hdeq
      rw [hdeq]
      exact hd
    · cases hcond
  · intro h
    refine ⟨p ++ [n], h, ?_⟩
    rw [if_pos ⟨by simp, List.dropLast_concat⟩]
    exact List.getLast?_concat _

theorem lookup_filter_of_true (f : FsPath → Bool) (l : List (FsPath × FileData)) (q : FsPath)
    (hq : f q = true) : (l.filter (fun e => f e.1)).lookup q = l.lookup q := by
  induction l with
  | nil => rfl
  | cons hd tl ih =>
    obtain ⟨k, v⟩ := hd
    by_cases hqk : q = k
    · subst hqk
      simp [List.filter_cons, hq, List.lookup]
    · have hne : (q == k) = false := beq_eq_false_iff_ne.mpr hqk
      cases hk : f k with
      | true => simp [List.filter_cons, hk, List.lookup, hne, ih]
      | false => simp [List.filter_cons, hk, List.lookup, hne, ih]

theorem lookup_filter_of_false (f : FsPath → Bool) (l : List (FsPath × FileData)) (q : FsPath)
    (hq : f q = false) : (l.filter (fun e => f e.1)).lookup q = none := by
  induction l with
  | nil => rfl
  | cons hd tl ih =>
    obtain ⟨k, v⟩ := hd
    by_cases hqk : q = k
    · subst hqk
      simp [List.filter_cons, hq, ih]
    · have hne : (q == k) = false := beq_eq_false_iff_ne.mpr hqk
      cases hk : f k with
      | true => simp [List.filter_cons, hk, List.lookup, hne, ih]
      | false => simp [List.filter_cons, hk, List.lookup, hne, ih]

theorem fileLookup_writeFile (fs : FS) (p q : FsPath) (d : FileData) :
    fileLookup (writeFile fs p d) q = if q = p then some d else fileLookup fs q := by
  unfold fileLookup writeFile
  by_cases hqp : q = p
  · subst hqp; simp [List.lookup]
  · have hne : (q == p) = false := beq_eq_false_iff_ne.mpr hqp
    simp only [List.lookup, hne, if_neg hqp]
    exact lookup_filter_of_true (fun x => x != p) _ _ (by simp [bne, hne])

theorem dirs_writeFile (fs : FS) (p : FsPath) (d : FileData) :
    (writeFile fs p d).dirs = fs.dirs := rfl

theorem dirs_unlinkFile (fs : FS) (p : FsPath) : (unlinkFile fs p).dirs = fs.dirs := rfl

theorem fileLookup_unlinkFile (fs : FS) (p q : FsPath) :
    fileLookup (unlinkFile fs p) q = if q = p then none else fileLookup fs q := by
  unfold fileLookup unlinkFile
  by_cases hqp : q = p
  · subst hqp
    rw [if_pos rfl]
    exact lookup_filter_of_false (fun x => x != q) _ _ (by simp)
  · rw [if_neg hqp]
    exact lookup_filter_of_true (fun x => x != p) _ _ (by simp [bne, beq_eq_false_iff_ne.mpr hqp])

theorem mem_dirs_removeTree {q : FsPath} (fs : FS) (p : FsPath) :
    q ∈ (removeTree fs p).dirs ↔ q ∈ fs.dirs ∧ underPath p q = false := by
  simp [removeTree, List.mem_filter]

theorem fileLookup_removeTree (fs : FS) (p q : FsPath) :
    fileLookup (removeTree fs p) q =
      if underPath p q = true then none else fileLookup fs q := by
  unfold fileLookup removeTree
  by_cases h : underPath p q = true
  · rw [if_pos h]
    exact lookup_filter_of_false (fun x => !underPath p x) _ _ (by simp [h])
  · have h' : underPath p q = false := by revert h; cases underPath p q <;> simp
    rw [if_neg h]
    exact lookup_filter_of_true (fun x => !underPath p x) _ _ (by simp [h'])

theorem underPath_of_longer {p q : FsPath} (h : q.length < p.length) :
    underPath p q = false := by
  unfold underPath
  rw [beq_eq_false_iff_ne]
  intro heq
  have hlen : (q.take p.length).length = q.length := by
    rw [List.length_take]; omega
  rw [heq] at hlen
  omega

theorem eq_of_mem_inits_of_length {p q : FsPath} (h : q ∈ p.inits) (hl : p.length ≤ q.length) :
    q = p := by
  have hpre := (List.mem_inits _ _).mp h
  exact hpre.eq_of_length (le_antisymm hpre.length_le hl)

/-! ### The project and environment listings under mutation -/

theorem projectDir_mem_of_listed {fs : FS} {project : String}
    (hp : project ∈ list_projects fs) : projectDir project ∈ fs.dirs := by
  unfold list_projects at hp
  split at hp
  · cases hp
  · exact mem_childDirs.mp (List.mem_filter.mp hp).1

/-- Creating the (still marker-free) directory of a new environment does not
make any environment appear in the listing of a project that had none. -/
theorem list_environments_mkdirP_env_empty
    (fs : FS) (project environment : String)
    (hp : project ∈ list_projects fs)
    (he : list_environments fs project = [])
    (hm : pathExists fs (get_env_dir project environment ++ ["main.tf"]) = false) :
    list_environments (mkdirP fs (get_env_dir project environment)) project = [] := by
  have hpd : projectDir project ∈ fs.dirs := projectDir_mem_of_listed hp
  have hpdE : pathExists fs (projectDir project) = true := by
    simp [pathExists, hpd]
  have hpred : ∀ n ∈ childDirs fs (projectDir project),
      ¬((!startsWithDot n && pathExists fs (get_env_dir project n ++ ["main.tf"])) = true) := by
    unfold list_environments at he
    rw [if_neg (by simp [hpdE])] at he
    exact List.filter_eq_nil_iff.mp he
  set fs1 := mkdirP fs (get_env_dir project environment) with hfs1
  have hpdE1 : pathExists fs1 (projectDir project) = true := by
    simp only [hfs1, pathExists, Bool.or_eq_true, decide_eq_true_eq, mem_dirs_mkdirP]
    exact Or.inl (Or.inl hpd)
  have hmt : ∀ n : String,
      pathExists fs1 (get_env_dir project n ++ ["main.tf"]) =
        pathExists fs (get_env_dir project n ++ ["main.tf"]) := by
    intro n
    exact pathExists_mkdirP_of_longer fs _ _ (by simp [get_env_dir])
  unfold list_environments
  rw [if_neg (by simp [hpdE1])]
  rw [List.filter_eq_nil_iff]
  intro n hn
  have hmem : projectDir project ++ [n] ∈ fs1.dirs := mem_childDirs.mp hn
  rw [hfs1, mem_dirs_mkdirP] at hmem
  rcases hmem with hold | ⟨hin, -⟩
  · have := hpred n (mem_childDirs.mpr hold)
    rw [hmt n]
    exact this
  · have hlen : (get_env_dir project environment).length ≤ (projectDir project ++ [n]).length := by
      simp [get_env_dir, projectDir, projectsDir]
    have heq := eq_of_mem_inits_of_length hin hlen
    have hne : n = environment := by
      simpa [projectDir, get_env_dir, projectsDir] using heq
    subst hne
    rw [hmt n, hm]
    simp

/-! ### Claim C1: adding a duplicate environment fails atomically -/

/-- Claim C1: when the environment name is already present in the project's
environment list, `add_environment` exits with the already-exists error and
returns the filesystem untouched: no directory is created, no file is
written, and the saved project record is unchanged. -/
theorem add_environment_already_exists (fs : FS) (project environment size : String)
    (branchOpt domainOpt : Option String) (deploy : Bool)
    (prompts : AddEnvPrompts) (tf : TfRuns)
    (hp : project ∈ list_projects fs)
    (he : environment ∈ list_environments fs project) :
    add_environment fs project environment size branchOpt domainOpt deploy prompts tf
      = ⟨.err .alreadyExists, fs⟩ := by
  simp [add_environment, hp, he]

/-- A store holding project `acme` with environments `dev` and `production`
(both marked by `main.tf`), `dev` deployed. -/
def acmeFS : FS :=
  { dirs := [[".dry2"], projectsDir, projectDir "acme", get_env_dir "acme" "dev",
             get_env_dir "acme" "production"],
    files := [(get_env_dir "acme" "dev" ++ ["main.tf"], .blob),
              (get_env_dir "acme" "production" ++ ["main.tf"], .blob),
              (get_env_dir "acme" "dev" ++ ["terraform.tfstate"], .blob),
              (projectDir "acme" ++ ["config.yaml"], .yamlConfig
                { name := some "acme",
                  domains := some [("production", "acme.example.com"), ("dev", "dev.acme.example.com")],
                  environments := some [("production", ⟨"main", "large"⟩), ("dev", ⟨"develop", "small"⟩)] })] }

/-- Witness for C1: adding `dev` to `acme` again fails atomically. -/
theorem add_environment_already_exists_witness :
    add_environment acmeFS "acme" "dev" "medium" none none true
        ⟨"develop", "dev.acme.example.com", true, true⟩ ⟨true, true, true, .error ()⟩
      = ⟨.err .alreadyExists, acmeFS⟩ :=
  add_environment_already_exists acmeFS "acme" "dev" "medium" none none true _ _
    (by decide) (by decide)

/-! ### Claim C2: removing a protected environment -/

/-- A store holding project `acme` with only a `staging` environment. -/
def stagingOnlyFS : FS :=
  { dirs := [[".dry2"], projectsDir, projectDir "acme", get_env_dir "acme" "staging"],
    files := [(get_env_dir "acme" "staging" ++ ["main.tf"], .blob)] }

/-- Counterexample to C2 as stated: for the existing project `acme` that has
no `dev` environment, `remove_environment "dev"` (with force) fails with the
not-found error, not with the protected-environment error — the not-found
check precedes the protected-name check in the source. -/
theorem remove_environment_dev_not_protected_error :
    "acme" ∈ list_projects stagingOnlyFS ∧
    (remove_environment stagingOnlyFS "acme" "dev" true true).outcome = .err .notFound ∧
    (remove_environment stagingOnlyFS "acme" "dev" true true).outcome ≠ .err .protectedEnv := by
  decide

/-- Claim C2 (amended): when `dev` or `production` is present in the
project's environment list, `remove_environment` fails with the
protected-environment error regardless of the force flag, leaving the
directory tree and the project record unchanged; when the name is not
listed, it fails with the not-found error, also without mutation. -/
theorem remove_environment_protected (fs : FS) (project environment : String)
    (force confirmRemove : Bool)
    (hname : environment ∈ (["dev", "production"] : List String)) :
    (environment ∈ list_environments fs project →
      remove_environment fs project environment force confirmRemove
        = ⟨.err .protectedEnv, fs⟩) ∧
    (environment ∉ list_environments fs project →
      remove_environment fs project environment force confirmRemove
        = ⟨.err .notFound, fs⟩) := by
  constructor
  · intro he
    simp [remove_environment, he, hname]
  · intro he
    simp [remove_environment, he]

/-- Witness for C2 (amended): removing `dev` from `acme` fails with the
protected-environment error and changes nothing, with and without force. -/
theorem remove_environment_protected_witness :
    remove_environment acmeFS "acme" "dev" true true = ⟨.err .protectedEnv, acmeFS⟩ ∧
    remove_environment acmeFS "acme" "production" false false = ⟨.err .protectedEnv, acmeFS⟩ :=
  ⟨(remove_environment_protected acmeFS "acme" "dev" true true (by decide)).1 (by decide),
   (remove_environment_protected acmeFS "acme" "production" false false (by decide)).1 (by decide)⟩

/-! ### Claim C3: destroy with no state file is a successful no-op -/

/-- Claim C3: on an existing project and environment whose directory has no
`terraform.tfstate`, `destroy_environment` returns success, never invokes
the adapter's destroy, and leaves the filesystem unchanged. -/
theorem destroy_environment_no_state (fs : FS) (project environment : String)
    (auto_approve keep_config : Bool) (typedConfirm : String) (confirmAsk destroyOk : Bool)
    (hp : project ∈ list_projects fs)
    (he : environment ∈ list_environments fs project)
    (hs : pathExists fs (get_env_dir project environment ++ ["terraform.tfstate"]) = false) :
    destroy_environment fs project environment auto_approve keep_config typedConfirm
        confirmAsk destroyOk
      = ⟨.ok, fs, false⟩ := by
  simp [destroy_environment, hp, he, hs]

/-- Witness for C3: `production` of `acme` has no state file; destroying it
is a successful no-op without any adapter invocation. -/
theorem destroy_environment_no_state_witness :
    destroy_environment acmeFS "acme" "production" false false "" false true
      = ⟨.ok, acmeFS, false⟩ :=
  destroy_environment_no_state acmeFS "acme" "production" false false "" false true
    (by decide) (by decide) (by decide)

/-! ### Claim C9: adding to a project with an empty environment list crashes -/

/-- Claim C9: on an existing project whose environment list is empty, a
confirmed `add_environment` run with a valid size reaches the
credential-source lookup `config.list_environments(project_name)[0]` and
dies of the unhandled IndexError — not of a typed error — after having
already created the new environment directory.  (The marker-absence
hypothesis is a model artifact: on a real filesystem a file cannot exist
below a directory that does not exist, so it is implied by the empty
listing.) -/
theorem add_environment_empty_envs_crashes (fs : FS) (project environment size : String)
    (branchOpt domainOpt : Option String) (deploy : Bool)
    (prompts : AddEnvPrompts) (tf : TfRuns)
    (hp : project ∈ list_projects fs)
    (he : list_environments fs project = [])
    (hsize : (NODE_SIZES.lookup size).isSome = true)
    (hconfirm : prompts.confirmCreate = true)
    (hm : pathExists fs (get_env_dir project environment ++ ["main.tf"]) = false) :
    add_environment fs project environment size branchOpt domainOpt deploy prompts tf
      = ⟨.crash, mkdirP fs (get_env_dir project environment)⟩ := by
  obtain ⟨pr, hpr⟩ := Option.isSome_iff_exists.mp hsize
  have hempty := list_environments_mkdirP_env_empty fs project environment hp he hm
  simp [add_environment, hp, he, hpr, hconfirm, hempty]

/-- A store holding project `bare` whose directory exists but contains no
environment at all. -/
def bareProjectFS : FS :=
  { dirs := [[".dry2"], projectsDir, projectDir "bare"], files := [] }

/-- Witness for C9: adding `staging` to the environment-less project `bare`
crashes after creating the `staging` directory. -/
theorem add_environment_empty_envs_crashes_witness :
    add_environment bareProjectFS "bare" "staging" "medium" none none false
        ⟨"staging", "s.example.com", true, true⟩ ⟨true, true, true, .error ()⟩
      = ⟨.crash, mkdirP bareProjectFS (get_env_dir "bare" "staging")⟩ :=
  add_environment_empty_envs_crashes bareProjectFS "bare" "staging" "medium" none none false
    _ _ (by decide) (by decide) (by decide) (by decide) (by decide)

/-! ### Claim C6: what `list_environments` reports -/

theorem pathExists_writeFile_of_ne (fs : FS) (p q : FsPath) (d : FileData) (h : q ≠ p) :
    pathExists (writeFile fs p d) q = pathExists fs q := by
  simp [pathExists, fileLookup_writeFile, h, dirs_writeFile]

/-- Modelled from the claim's words: the names of all subdirectories of the
project directory that contain the `main.tf` marker file, with no further
condition. -/
def subdirsWithMarker (fs : FS) (project : String) : List String :=
  (childDirs fs (projectDir project)).filter
    (fun n => pathExists fs (get_env_dir project n ++ ["main.tf"]))

/-- A store holding project `p` whose only subdirectory is `.hidden`, which
does contain a `main.tf` marker. -/
def hiddenEnvFS : FS :=
  { dirs := [[".dry2"], projectsDir, projectDir "p", get_env_dir "p" ".hidden"],
    files := [(get_env_dir "p" ".hidden" ++ ["main.tf"], .blob)] }

/-- Counterexample to C6 as stated: `.hidden` is a subdirectory of the
project directory containing the marker file, yet `list_environments` omits
it — the listing is not exactly the marker-bearing subdirectories, because
dot-prefixed names are additionally excluded (config.py:67). -/
theorem list_environments_not_exactly_marker_dirs :
    subdirsWithMarker hiddenEnvFS "p" = [".hidden"] ∧
    list_environments hiddenEnvFS "p" = [] := by
  decide

/-- Membership in the environment listing, characterised extensionally:
the project directory exists, the name is a subdirectory of it, not hidden,
and its `main.tf` marker exists. -/
theorem mem_list_environments (fs : FS) (project n : String) :
    n ∈ list_environments fs project ↔
      (pathExists fs (projectDir project) = true ∧
        projectDir project ++ [n] ∈ fs.dirs ∧
        startsWithDot n = false ∧
        pathExists fs (get_env_dir project n ++ ["main.tf"]) = true) := by
  unfold list_environments
  by_cases hpd : pathExists fs (projectDir project) = true
  · rw [if_neg (by simp [hpd])]
    rw [List.mem_filter, mem_childDirs]
    constructor
    · rintro ⟨hmem, hcond⟩
      rw [Bool.and_eq_true] at hcond
      refine ⟨hpd, hmem, ?_, hcond.2⟩
      have := hcond.1
      revert this
      cases startsWithDot n <;> simp
    · rintro ⟨-, hmem, hdot, hmark⟩
      exact ⟨hmem, by rw [Bool.and_eq_true, hdot, hmark]; exact ⟨rfl, rfl⟩⟩
  · have hpd' : pathExists fs (projectDir project) = false := by
      revert hpd; cases pathExists fs (projectDir project) <;> simp
    rw [if_pos (by simp [hpd'])]
    simp [hpd']

/-- Claim C6 (amended): `list_environments` returns exactly the names of the
non-hidden (not dot-prefixed) subdirectories of the project directory that
contain the `main.tf` marker; in particular it never reports a name whose
directory lacks the marker, and the contents of the project's YAML record
have no influence on the listing — overwriting `config.yaml` with any
record leaves the listing unchanged. -/
theorem list_environments_characterization (fs : FS) (project n : String) :
    (n ∈ list_environments fs project ↔
      (pathExists fs (projectDir project) = true ∧
        projectDir project ++ [n] ∈ fs.dirs ∧
        startsWithDot n = false ∧
        pathExists fs (get_env_dir project n ++ ["main.tf"]) = true)) ∧
    (∀ r : ProjectRecord,
      list_environments
          (writeFile fs (projectDir project ++ ["config.yaml"]) (.yamlConfig r)) project
        = list_environments fs project) := by
  refine ⟨mem_list_environments fs project n, ?_⟩
  intro r
  have hne1 : projectDir project ≠ projectDir project ++ ["config.yaml"] := by
    intro h
    have := congrArg List.length h
    simp at this
  have hcd : ∀ q : FsPath,
      childDirs (writeFile fs (projectDir project ++ ["config.yaml"]) (.yamlConfig r)) q
        = childDirs fs q := fun _ => rfl
  unfold list_environments
  rw [hcd, pathExists_writeFile_of_ne fs _ _ _ hne1]
  by_cases hpd : pathExists fs (projectDir project) = true
  · rw [if_neg (by simp [hpd]), if_neg (by simp [hpd])]
    refine List.filter_congr ?_
    intro m hm
    have hne2 : get_env_dir project m ++ ["main.tf"] ≠ projectDir project ++ ["config.yaml"] := by
      intro h
      have := congrArg List.length h
      simp [get_env_dir, projectDir, projectsDir] at this
    rw [pathExists_writeFile_of_ne fs _ _ _ hne2]
  · have hpd' : pathExists fs (projectDir project) = false := by
      revert hpd; cases pathExists fs (projectDir project) <;> simp
    rw [if_pos (by simp [hpd']), if_pos (by simp [hpd'])]

/-- Witness for C6 (amended) at the concrete store `acmeFS`: membership of
`dev` and invariance of the listing under a record overwrite. -/
theorem list_environments_characterization_witness :
    "dev" ∈ list_environments acmeFS "acme" ∧
    list_environments
        (writeFile acmeFS (projectDir "acme" ++ ["config.yaml"])
          (.yamlConfig { environments := some [("ghost", ⟨"ghost", "small"⟩)] })) "acme"
      = list_environments acmeFS "acme" := by
  refine ⟨?_, (list_environments_characterization acmeFS "acme" "dev").2 _⟩
  exact (list_environments_characterization acmeFS "acme" "dev").1.mpr
    ⟨by decide, by decide, by decide, by decide⟩

/-! ### Claim C10: the frame of `destroy_environment` -/

theorem pathExists_mkdirP_mono (fs : FS) (p q : FsPath) (h : pathExists fs q = true) :
    pathExists (mkdirP fs p) q = true := by
  simp only [pathExists, Bool.or_eq_true, decide_eq_true_eq, fileLookup_mkdirP] at h ⊢
  rcases h with h | h
  · exact Or.inl ((mem_dirs_mkdirP fs p).mpr (Or.inl h))
  · exact Or.inr h

theorem pathExists_unlinkFile_of_ne (fs : FS) (p q : FsPath) (h : q ≠ p) :
    pathExists (unlinkFile fs p) q = pathExists fs q := by
  simp [pathExists, fileLookup_unlinkFile, h, dirs_unlinkFile]

theorem pathExists_removeTree (fs : FS) (p q : FsPath) :
    pathExists (removeTree fs p) q =
      if underPath p q = true then false else pathExists fs q := by
  by_cases h : underPath p q = true
  · rw [if_pos h]
    simp [pathExists, fileLookup_removeTree, mem_dirs_removeTree, h]
  · have h' : underPath p q = false := by revert h; cases underPath p q <;> simp
    rw [if_neg h]
    simp [pathExists, fileLookup_removeTree, mem_dirs_removeTree, h']

theorem pathExists_removeArtifacts_of_clear (edir : FsPath) (l : List String) (fs : FS)
    (q : FsPath) (h : ∀ a ∈ l, underPath (edir ++ [a]) q = false) :
    pathExists (removeArtifacts edir fs l) q = pathExists fs q := by
  induction l generalizing fs with
  | nil => rfl
  | cons f rest ih =>
    have hf := h f (List.mem_cons_self _ _)
    have hrest := fun a ha => h a (List.mem_cons_of_mem _ ha)
    unfold removeArtifacts
    rw [ih _ hrest]
    split
    · rw [pathExists_removeTree, if_neg (by simp [hf])]
    · rfl

theorem pathExists_removeArtifacts_false (edir : FsPath) (l : List String) (fs : FS)
    (q : FsPath) (hq : pathExists (removeArtifacts edir fs l) q = false) :
    pathExists fs q = false ∨ ∃ a ∈ l, underPath (edir ++ [a]) q = true := by
  induction l generalizing fs with
  | nil => exact Or.inl hq
  | cons f rest ih =>
    unfold removeArtifacts at hq
    rcases ih _ hq with h1 | ⟨a, ha, hu⟩
    · by_cases hu : underPath (edir ++ [f]) q = true
      · exact Or.inr ⟨f, List.mem_cons_self _ _, hu⟩
      · have hu' : underPath (edir ++ [f]) q = false := by
          revert hu; cases underPath (edir ++ [f]) q <;> simp
        split at h1
        · rw [pathExists_removeTree, if_neg (by simp [hu'])] at h1
          exact Or.inl h1
        · exact Or.inl h1
    · exact Or.inr ⟨a, List.mem_cons_of_mem _ ha, hu⟩

theorem fileLookup_removeArtifacts_none (edir : FsPath) (l : List String) (fs : FS)
    (q : FsPath) (hq : fileLookup fs q = none) :
    fileLookup (removeArtifacts edir fs l) q = none := by
  induction l generalizing fs with
  | nil => exact hq
  | cons f rest ih =>
    unfold removeArtifacts
    refine ih _ ?_
    split
    · rw [fileLookup_removeTree]
      split
      · rfl
      · exact hq
    · exact hq

theorem underPath_append_singleton_ne (edir : FsPath) (a f : String) (h : a ≠ f) :
    underPath (edir ++ [a]) (edir ++ [f]) = false := by
  unfold underPath
  rw [beq_eq_false_iff_ne]
  intro heq
  rw [List.take_of_length_le (by simp)] at heq
  have := List.append_cancel_left heq
  simp at this
  exact h this.symm

theorem underPath_append_singleton_self (edir : FsPath) (a : String) :
    underPath (edir ++ [a]) edir = false :=
  underPath_of_longer (by simp)

theorem kubeconfigPath_ne_env_path (project environment : String) (rest : List String) :
    kubeconfigPath project environment ≠ get_env_dir project environment ++ rest := by
  intro h
  simp [kubeconfigPath, get_env_dir, projectsDir] at h

theorem fileLookup_postDestroyKube_kube (fs : FS) (project environment : String) :
    fileLookup (postDestroyKube fs project environment) (kubeconfigPath project environment)
      = none := by
  unfold postDestroyKube
  split
  · rw [fileLookup_unlinkFile, if_pos rfl]
  · rename_i hk
    have hk' : pathExists fs (kubeconfigPath project environment) = false := by
      revert hk; cases pathExists fs (kubeconfigPath project environment) <;> simp
    simp only [pathExists, Bool.or_eq_false_iff] at hk'
    exact Option.not_isSome_iff_eq_none.mp (by simp [hk'.2])

theorem pathExists_postDestroyKube_of_ne (fs : FS) (project environment : String) (q : FsPath)
    (hq : q ≠ kubeconfigPath project environment) :
    pathExists (postDestroyKube fs project environment) q = pathExists fs q := by
  unfold postDestroyKube
  split
  · exact pathExists_unlinkFile_of_ne _ _ _ hq
  · rfl

theorem pathExists_postDestroyFs_of_clear (fs : FS) (project environment : String)
    (keep_config : Bool) (q : FsPath)
    (hq : q ≠ kubeconfigPath project environment)
    (hclear : ∀ a ∈ stateArtifacts,
      underPath (get_env_dir project environment ++ [a]) q = false) :
    pathExists (postDestroyFs fs project environment keep_config) q =
      pathExists (mkdirP fs (get_env_dir project environment)) q := by
  unfold postDestroyFs
  split
  · rw [destroyCleanup, pathExists_removeArtifacts_of_clear _ _ _ _ hclear,
      pathExists_postDestroyKube_of_ne _ _ _ _ hq]
  · rw [pathExists_postDestroyKube_of_ne _ _ _ _ hq]

theorem fileLookup_postDestroyFs_kube (fs : FS) (project environment : String)
    (keep_config : Bool) :
    fileLookup (postDestroyFs fs project environment keep_config)
      (kubeconfigPath project environment) = none := by
  unfold postDestroyFs
  split
  · exact fileLookup_removeArtifacts_none _ _ _ _ (fileLookup_postDestroyKube_kube _ _ _)
  · exact fileLookup_postDestroyKube_kube _ _ _

theorem pathExists_postDestroyFs_false (fs : FS) (project environment : String)
    (keep_config : Bool) (q : FsPath)
    (h1 : pathExists fs q = true)
    (h2 : pathExists (postDestroyFs fs project environment keep_config) q = false) :
    q = kubeconfigPath project environment ∨
      ∃ a ∈ stateArtifacts, underPath (get_env_dir project environment ++ [a]) q = true := by
  by_cases hqk : q = kubeconfigPath project environment
  · exact Or.inl hqk
  · right
    have hmono := pathExists_mkdirP_mono fs (get_env_dir project environment) q h1
    have hkube := pathExists_postDestroyKube_of_ne
      (mkdirP fs (get_env_dir project environment)) project environment q hqk
    unfold postDestroyFs at h2
    by_cases hclear : ∀ a ∈ stateArtifacts,
        underPath (get_env_dir project environment ++ [a]) q = false
    · exfalso
      revert h2
      split
      · rw [destroyCleanup, pathExists_removeArtifacts_of_clear _ _ _ _ hclear, hkube, hmono]
        simp
      · rw [hkube, hmono]
        simp
    · push_neg at hclear
      obtain ⟨a, ha, hua⟩ := hclear
      have : underPath (get_env_dir project environment ++ [a]) q = true := by
        revert hua; cases underPath (get_env_dir project environment ++ [a]) q <;> simp
      exact ⟨a, ha, this⟩

/-- The three result shapes of `destroy_environment`: an early return with
an untouched filesystem, a failed destroy, or a successful destroy. -/
theorem destroy_environment_shape (fs : FS) (project environment : String)
    (auto_approve keep_config : Bool) (typedConfirm : String) (confirmAsk destroyOk : Bool) :
    ((destroy_environment fs project environment auto_approve keep_config typedConfirm
        confirmAsk destroyOk).fs = fs ∧
      (destroy_environment fs project environment auto_approve keep_config typedConfirm
        confirmAsk destroyOk).destroyInvoked = false) ∨
    destroy_environment fs project environment auto_approve keep_config typedConfirm
        confirmAsk destroyOk
      = ⟨.err .destroyFailed, mkdirP fs (get_env_dir project environment), true⟩ ∨
    destroy_environment fs project environment auto_approve keep_config typedConfirm
        confirmAsk destroyOk
      = ⟨.ok, postDestroyFs fs project environment keep_config, true⟩ := by
  unfold destroy_environment
  split
  · exact Or.inl ⟨rfl, rfl⟩
  split
  · exact Or.inl ⟨rfl, rfl⟩
  split
  · exact Or.inl ⟨rfl, rfl⟩
  split
  · exact Or.inl ⟨rfl, rfl⟩
  split
  · exact Or.inl ⟨rfl, rfl⟩
  split
  · exact Or.inr (Or.inl rfl)
  · exact Or.inr (Or.inr rfl)

/-- Claim C10: `destroy_environment` never deletes the environment directory
nor the rendered configuration files (`main.tf`, `variables.tf`,
`outputs.tf`, `terraform.tfvars`, `values.yaml`), for any keep-config value
and any outcome; after any successful destroy the per-user kubeconfig
artifact for the project-environment pair is absent; and any path that
existed before and is gone afterwards is either that kubeconfig artifact or
lies under one of the four state artifacts (`terraform.tfstate`,
`terraform.tfstate.backup`, `.terraform`, `.terraform.lock.hcl`) of the
environment directory — so with keep-config off only state artifacts and
the kubeconfig are removed. -/
theorem destroy_environment_frame (fs : FS) (project environment : String)
    (auto_approve keep_config : Bool) (typedConfirm : String) (confirmAsk destroyOk : Bool)
    (r : DestroyEnvResult)
    (hr : r = destroy_environment fs project environment auto_approve keep_config
      typedConfirm confirmAsk destroyOk) :
    (pathExists fs (get_env_dir project environment) = true →
      pathExists r.fs (get_env_dir project environment) = true) ∧
    (∀ f ∈ (["main.tf", "variables.tf", "outputs.tf", "terraform.tfvars",
             "values.yaml"] : List String),
      pathExists fs (get_env_dir project environment ++ [f]) = true →
      pathExists r.fs (get_env_dir project environment ++ [f]) = true) ∧
    (r.outcome = .ok → r.destroyInvoked = true →
      fileLookup r.fs (kubeconfigPath project environment) = none) ∧
    (∀ q : FsPath, pathExists fs q = true → pathExists r.fs q = false →
      q = kubeconfigPath project environment ∨
        ∃ a ∈ stateArtifacts,
          underPath (get_env_dir project environment ++ [a]) q = true) := by
  rcases destroy_environment_shape fs project environment auto_approve keep_config
    typedConfirm confirmAsk destroyOk with ⟨hfs, hinv⟩ | heq | heq
  · rw [hr]
    refine ⟨fun h => by rw [hfs]; exact h,
            fun f _ h => by rw [hfs]; exact h,
            fun _ h2 => absurd h2 (by simp [hinv]),
            fun q h1 h2 => absurd h1 (by rw [hfs] at h2; simp [h2])⟩
  · rw [hr, heq]
    refine ⟨fun h => pathExists_mkdirP_mono _ _ _ h,
            fun f _ h => pathExists_mkdirP_mono _ _ _ h,
            fun h _ => absurd h (by simp),
            fun q h1 h2 =>
              absurd (pathExists_mkdirP_mono fs (get_env_dir project environment) q h1)
                (by simp [h2])⟩
  · rw [hr, heq]
    refine ⟨?_, ?_, fun _ _ => fileLookup_postDestroyFs_kube _ _ _ _, ?_⟩
    · intro h
      rw [pathExists_postDestroyFs_of_clear _ _ _ _ _
        (fun hq => kubeconfigPath_ne_env_path project environment [] (by simpa using hq.symm))
        (fun a _ => underPath_append_singleton_self _ a)]
      exact pathExists_mkdirP_mono _ _ _ h
    · intro f hf h
      rw [pathExists_postDestroyFs_of_clear _ _ _ _ _
        (fun hq => kubeconfigPath_ne_env_path project environment [f] hq.symm)
        (fun a ha => underPath_append_singleton_ne _ a f
          (by fin_cases ha <;> fin_cases hf <;> decide))]
      exact pathExists_mkdirP_mono _ _ _ h
    · intro q h1 h2
      exact pathExists_postDestroyFs_false fs project environment keep_config q h1 h2

/-- A store with a deployed `staging` environment of `acme` (state file,
`.terraform` directory, rendered files, kubeconfig artifact present). -/
def deployedFS : FS :=
  { dirs := [[".dry2"], projectsDir, projectDir "acme", get_env_dir "acme" "staging",
             get_env_dir "acme" "staging" ++ [".terraform"], ["HOME"], ["HOME", ".kube"]],
    files := [(get_env_dir "acme" "staging" ++ ["main.tf"], .blob),
              (get_env_dir "acme" "staging" ++ ["variables.tf"], .blob),
              (get_env_dir "acme" "staging" ++ ["outputs.tf"], .blob),
              (get_env_dir "acme" "staging" ++ ["terraform.tfvars"], .blob),
              (get_env_dir "acme" "staging" ++ ["values.yaml"], .blob),
              (get_env_dir "acme" "staging" ++ ["terraform.tfstate"], .blob),
              (kubeconfigPath "acme" "staging", .text "kubecfg")] }

/-- Witness for C10: destroying deployed `staging` with keep-config off
keeps `main.tf` and removes the kubeconfig artifact. -/
theorem destroy_environment_frame_witness :
    pathExists (destroy_environment deployedFS "acme" "staging" true false "" true true).fs
        (get_env_dir "acme" "staging" ++ ["main.tf"]) = true ∧
    fileLookup (destroy_environment deployedFS "acme" "staging" true false "" true true).fs
        (kubeconfigPath "acme" "staging") = none :=
  ⟨(destroy_environment_frame deployedFS "acme" "staging" true false "" true true _ rfl).2.1
      "main.tf" (by decide) (by decide),
   (destroy_environment_frame deployedFS "acme" "staging" true false "" true true _ rfl).2.2.1
      (by decide) (by decide)⟩


/-! ### Claim C4: `destroy_project` iterates independently -/

theorem hasState_mkdirP_envdir (fs : FS) (project e e2 : String) :
    pathExists (mkdirP fs (get_env_dir project e))
        (get_env_dir project e2 ++ ["terraform.tfstate"])
      = pathExists fs (get_env_dir project e2 ++ ["terraform.tfstate"]) :=
  pathExists_mkdirP_of_longer _ _ _ (by simp [get_env_dir])

theorem destroyProjectLoop_invocations (project : String) (destroyOk : String → Bool)
    (envs : List String) (fs : FS) :
    (destroyProjectLoop project destroyOk fs envs).2.1 =
      envs.filter
        (fun e => pathExists fs (get_env_dir project e ++ ["terraform.tfstate"])) := by
  induction envs generalizing fs with
  | nil => rfl
  | cons e rest ih =>
    unfold destroyProjectLoop
    by_cases hst : pathExists fs (get_env_dir project e ++ ["terraform.tfstate"]) = true
    · rw [if_neg (by simp [hst])]
      have hcg : rest.filter
            (fun x => pathExists (mkdirP fs (get_env_dir project e))
              (get_env_dir project x ++ ["terraform.tfstate"]))
          = rest.filter
            (fun x => pathExists fs (get_env_dir project x ++ ["terraform.tfstate"])) :=
        List.filter_congr (fun x _ => hasState_mkdirP_envdir fs project e x)
      split
      · simp only [ih]
        simp [List.filter_cons, hst, hcg]
      · simp only [ih]
        simp [List.filter_cons, hst, hcg]
    · have hst' : pathExists fs (get_env_dir project e ++ ["terraform.tfstate"]) = false := by
        revert hst; cases pathExists fs (get_env_dir project e ++ ["terraform.tfstate"]) <;> simp
      rw [if_pos (by simp [hst'])]
      simp only [ih fs]
      simp [List.filter_cons, hst']

theorem destroyProjectLoop_events (project : String) (destroyOk : String → Bool)
    (envs : List String) (fs : FS) (e : String) (he : e ∈ envs) :
    (pathExists fs (get_env_dir project e ++ ["terraform.tfstate"]) = false →
      DMsg.skipped e ∈ (destroyProjectLoop project destroyOk fs envs).2.2) ∧
    (pathExists fs (get_env_dir project e ++ ["terraform.tfstate"]) = true →
      destroyOk e = true →
      DMsg.destroyed e ∈ (destroyProjectLoop project destroyOk fs envs).2.2) ∧
    (pathExists fs (get_env_dir project e ++ ["terraform.tfstate"]) = true →
      destroyOk e = false →
      DMsg.destroyFailedOn e ∈ (destroyProjectLoop project destroyOk fs envs).2.2) := by
  induction envs generalizing fs with
  | nil => cases he
  | cons hd rest ih =>
    unfold destroyProjectLoop
    rcases List.mem_cons.mp he with heq | hrest
    · subst heq
      by_cases hst : pathExists fs (get_env_dir project e ++ ["terraform.tfstate"]) = true
      · rw [if_neg (by simp [hst])]
        by_cases hok : destroyOk e = true
        · rw [if_pos hok]
          exact ⟨fun hc => absurd hst (by simp [hc]),
                 fun _ _ => List.mem_cons_of_mem _ (List.mem_cons_self _ _),
                 fun _ hok2 => absurd hok (by simp [hok2])⟩
        · rw [if_neg hok]
          have hok' : destroyOk e = false := by revert hok; cases destroyOk e <;> simp
          exact ⟨fun hc => absurd hst (by simp [hc]),
                 fun _ hok2 => absurd hok2 (by simp [hok']),
                 fun _ _ => List.mem_cons_of_mem _ (List.mem_cons_self _ _)⟩
      · have hst' : pathExists fs (get_env_dir project e ++ ["terraform.tfstate"]) = false := by
          revert hst; cases pathExists fs (get_env_dir project e ++ ["terraform.tfstate"]) <;> simp
        rw [if_pos (by simp [hst'])]
        exact ⟨fun _ => List.mem_cons_self _ _,
               fun hc _ => absurd hst' (by simp [hc]),
               fun hc _ => absurd hst' (by simp [hc])⟩
    · by_cases hst : pathExists fs (get_env_dir project hd ++ ["terraform.tfstate"]) = true
      · rw [if_neg (by simp [hst])]
        have ih1 := ih (mkdirP fs (get_env_dir project hd)) hrest
        rw [hasState_mkdirP_envdir fs project hd e] at ih1
        by_cases hok : destroyOk hd = true
        · rw [if_pos hok]
          exact ⟨fun hc => List.mem_cons_of_mem _ (List.mem_cons_of_mem _ (ih1.1 hc)),
                 fun hc h2 => List.mem_cons_of_mem _ (List.mem_cons_of_mem _ (ih1.2.1 hc h2)),
                 fun hc h2 => List.mem_cons_of_mem _ (List.mem_cons_of_mem _ (ih1.2.2 hc h2))⟩
        · rw [if_neg hok]
          exact ⟨fun hc => List.mem_cons_of_mem _ (List.mem_cons_of_mem _
                   (List.mem_cons_of_mem _ (ih1.1 hc))),
                 fun hc h2 => List.mem_cons_of_mem _ (List.mem_cons_of_mem _
                   (List.mem_cons_of_mem _ (ih1.2.1 hc h2))),
                 fun hc h2 => List.mem_cons_of_mem _ (List.mem_cons_of_mem _
                   (List.mem_cons_of_mem _ (ih1.2.2 hc h2)))⟩
      · have hst' : pathExists fs (get_env_dir project hd ++ ["terraform.tfstate"]) = false := by
          revert hst; cases pathExists fs (get_env_dir project hd ++ ["terraform.tfstate"]) <;> simp
        rw [if_pos (by simp [hst'])]
        have ih1 := ih fs hrest
        exact ⟨fun hc => List.mem_cons_of_mem _ (ih1.1 hc),
               fun hc hok => List.mem_cons_of_mem _ (ih1.2.1 hc hok),
               fun hc hok => List.mem_cons_of_mem _ (ih1.2.2 hc hok)⟩

/-- A store holding project `acme` with a deployed `dev` (state file) and an
undeployed `staging`. -/
def twoEnvFS : FS :=
  { dirs := [[".dry2"], projectsDir, projectDir "acme", get_env_dir "acme" "dev",
             get_env_dir "acme" "staging"],
    files := [(get_env_dir "acme" "dev" ++ ["main.tf"], .blob),
              (get_env_dir "acme" "dev" ++ ["terraform.tfstate"], .blob),
              (get_env_dir "acme" "staging" ++ ["main.tf"], .blob)] }

/-- Counterexample to C4 as stated: in a run where `dev` is deployed and its
destroy fails while `staging` is skipped, the destroy failure is reported
inline (before `staging` is even considered) and the transcript ends with
the fixed completion notice `projectDone`, which names no targets — there is
no final summary listing which targets succeeded and which failed. -/
theorem destroy_project_no_final_summary :
    (destroy_project twoEnvFS "acme" true "" (fun _ => false)).events
      = [.destroying "dev", .destroyFailedOn "dev", .continuingOthers,
         .skipped "staging", .projectDone] ∧
    finalReportListsOutcomes
      (destroy_project twoEnvFS "acme" true "" (fun _ => false)).events [] ["dev"] = false ∧
    (destroy_project twoEnvFS "acme" true "" (fun _ => false)).invocations = ["dev"] := by
  decide

/-- Claim C4 (amended): on a confirmed run over an existing project, the
adapter's destroy is invoked exactly on the environments that have a state
file, in listing order — so exactly once per deployed environment and never
for undeployed ones, and a failure on one environment never prevents the
remaining attempts (the invocation list does not depend on the outcome
oracle); each target's outcome is reported inline as the loop proceeds
(`skipped`, `destroyed`, or `destroyFailedOn`), and the run always ends
with the fixed `projectDone` notice rather than a summary listing successes
and failures. -/
theorem destroy_project_report (fs : FS) (project : String)
    (typedConfirm : String) (destroyOk : String → Bool)
    (r : DestroyProjResult)
    (hp : project ∈ list_projects fs)
    (hr : r = destroy_project fs project true typedConfirm destroyOk) :
    r.invocations =
      (list_environments fs project).filter
        (fun e => pathExists fs (get_env_dir project e ++ ["terraform.tfstate"])) ∧
    ((list_environments fs project).Nodup →
      ∀ e ∈ list_environments fs project,
        r.invocations.count e =
          if pathExists fs (get_env_dir project e ++ ["terraform.tfstate"]) = true
          then 1 else 0) ∧
    (∀ e ∈ list_environments fs project,
      (pathExists fs (get_env_dir project e ++ ["terraform.tfstate"]) = false →
        DMsg.skipped e ∈ r.events) ∧
      (pathExists fs (get_env_dir project e ++ ["terraform.tfstate"]) = true →
        destroyOk e = true → DMsg.destroyed e ∈ r.events) ∧
      (pathExists fs (get_env_dir project e ++ ["terraform.tfstate"]) = true →
        destroyOk e = false → DMsg.destroyFailedOn e ∈ r.events)) ∧
    r.events.getLast? = some .projectDone := by
  have hrw : r = ⟨.ok, (destroyProjectLoop project destroyOk fs (list_environments fs project)).1,
      (destroyProjectLoop project destroyOk fs (list_environments fs project)).2.1,
      (destroyProjectLoop project destroyOk fs (list_environments fs project)).2.2
        ++ [.projectDone]⟩ := by
    rw [hr]
    unfold destroy_project
    rw [if_neg (by simp [hp]), if_neg (by simp)]
  subst hrw
  refine ⟨destroyProjectLoop_invocations project destroyOk _ fs, ?_, ?_, ?_⟩
  · intro hnd e he
    rw [destroyProjectLoop_invocations project destroyOk _ fs]
    split
    · rename_i hst
      exact List.count_eq_one_of_mem (hnd.filter _)
        (List.mem_filter.mpr ⟨he, hst⟩)
    · rename_i hst
      refine List.count_eq_zero.mpr (fun hc => ?_)
      exact hst (List.mem_filter.mp hc).2
  · intro e he
    have hev := destroyProjectLoop_events project destroyOk
      (list_environments fs project) fs e he
    exact ⟨fun hc => List.mem_append_left _ (hev.1 hc),
           fun hc hok => List.mem_append_left _ (hev.2.1 hc hok),
           fun hc hok => List.mem_append_left _ (hev.2.2 hc hok)⟩
  · exact List.getLast?_concat _

/-- Witness for C4 (amended) on the two-environment store: `dev` (deployed,
destroy succeeds) is the only invocation and is reported destroyed,
`staging` is reported skipped, and the run ends with the fixed notice. -/
theorem destroy_project_report_witness :
    (destroy_project twoEnvFS "acme" true "" (fun _ => true)).invocations = ["dev"] ∧
    DMsg.destroyed "dev" ∈ (destroy_project twoEnvFS "acme" true "" (fun _ => true)).events ∧
    DMsg.skipped "staging" ∈ (destroy_project twoEnvFS "acme" true "" (fun _ => true)).events ∧
    (destroy_project twoEnvFS "acme" true "" (fun _ => true)).events.getLast?
      = some .projectDone := by
  have h := destroy_project_report twoEnvFS "acme" "" (fun _ => true) _ (by decide) rfl
  refine ⟨?_, ?_, ?_, h.2.2.2⟩
  · rw [h.1]; decide
  · exact (h.2.2.1 "dev" (by decide)).2.1 (by decide) rfl
  · exact (h.2.2.1 "staging" (by decide)).1 (by decide)

/-! ### `init project` (`src/dry2/commands/init.py`)

The embedding starts after the interactive prompt sequence: the prompts
resolve the parameters below (project name, GitHub repository, region,
domains) and every confirmation is answered yes (a declined confirmation is
a plain `sys.exit(0)` before any filesystem effect).  `is_django_app` is the
`manage.py`/`requirements.txt` detection; the two availability flags stand
for the helm-chart and terraform-module trees shipped inside the installed
package (outside this repository's persisted store).  The current working
directory is the configuration root. -/

structure InitParams where
  project_name : String
  github_repo : String
  region : String
  prod_domain : String
  dev_domain : String
  is_django_app : Bool
  helmChartAvailable : Bool
  modulesAvailable : Bool

/-- The gitignore entries appended by `init` (joined with newlines). -/
def gitignoreBlock : String :=
  "\n# DRY2-IaaS - Terraform state and variables\n" ++
  ".dry2/terraform/.terraform/\n.dry2/terraform/**/.terraform/\n" ++
  ".dry2/terraform/**/*.tfstate\n.dry2/terraform/**/*.tfstate.backup\n" ++
  ".dry2/terraform/**/terraform.tfvars\n.dry2/terraform/**/.terraform.lock.hcl\n"

/-- The `.gitignore` update: append the exclusion block unless the
`# DRY2-IaaS` marker is already present.  (A pre-existing non-text
`.gitignore` is outside the modelled states and is overwritten opaquely.) -/
def updateGitignore (fs : FS) : FS :=
  match fileLookup fs [".gitignore"] with
  | some (.text s) =>
    if (s.splitOn "# DRY2-IaaS").length > 1 then fs
    else writeFile fs [".gitignore"] (.text (s ++ gitignoreBlock))
  | some _ => writeFile fs [".gitignore"] .blob
  | none => writeFile fs [".gitignore"] (.text gitignoreBlock)

/-- Copy one environment's terraform files into the application repo
(`cwd/.dry2/terraform/environments/<env>`), with `terraform.tfvars` renamed
to `terraform.tfvars.example`. -/
def copyEnvTf (fs : FS) (p : InitParams) (env : String) : FS :=
  if pathExists
      (["main.tf", "variables.tf", "outputs.tf"].foldl
        (fun acc f =>
          if pathExists acc (projectDir p.project_name ++ [env, f]) = true then
            writeFile acc ([".dry2", "terraform", "environments", env] ++ [f]) .blob
          else acc)
        (mkdirP fs [".dry2", "terraform", "environments", env]))
      (projectDir p.project_name ++ [env, "terraform.tfvars"]) = true then
    writeFile
      (["main.tf", "variables.tf", "outputs.tf"].foldl
        (fun acc f =>
          if pathExists acc (projectDir p.project_name ++ [env, f]) = true then
            writeFile acc ([".dry2", "terraform", "environments", env] ++ [f]) .blob
          else acc)
        (mkdirP fs [".dry2", "terraform", "environments", env]))
      ([".dry2", "terraform", "environments", env, "terraform.tfvars.example"]) .blob
  else
    ["main.tf", "variables.tf", "outputs.tf"].foldl
      (fun acc f =>
        if pathExists acc (projectDir p.project_name ++ [env, f]) = true then
          writeFile acc ([".dry2", "terraform", "environments", env] ++ [f]) .blob
        else acc)
      (mkdirP fs [".dry2", "terraform", "environments", env])

/-- `shutil.copytree` of an external package tree to `dest` after removing a
pre-existing `dest`; the copied contents are package data, modelled as the
destination directory. -/
def copyTreeTo (fs : FS) (dest : FsPath) : FS :=
  mkdirP (if pathExists fs dest = true then removeTree fs dest else fs) dest

/-- One environment of the `init` creation loop (lines 176-207): the
directory, the four rendered terraform files, and `values.yaml`.  The size
profile and domain only shape the rendered file contents, which are opaque
here. -/
def initEnvDir (fs : FS) (p : InitParams) (env : String) : FS :=
  create_helm_values
    (create_terraform_files (addDir fs (projectDir p.project_name ++ [env]))
      (projectDir p.project_name ++ [env]))
    (projectDir p.project_name ++ [env, "values.yaml"])

/-- `shutil.copytree` guarded by the source tree's availability (the code
skips the copy with a warning when the packaged source tree is missing). -/
def copyTreeToIf (b : Bool) (fs : FS) (dest : FsPath) : FS :=
  if b = true then copyTreeTo fs dest else fs

/-- The GitHub-Actions workflow write plus, outside an application repo, the
file copies into `cwd/.dry2` and the gitignore update (lines 226-321). -/
def initWorkflowAndCopies (fs : FS) (p : InitParams) : FS :=
  if p.is_django_app = true then
    writeFile (mkdirP fs [".github", "workflows"]) [".github", "workflows", "deploy.yml"] .blob
  else
    updateGitignore
      (copyTreeToIf p.modulesAvailable
        (copyTreeToIf p.helmChartAvailable
          (copyEnvTf
            (copyEnvTf
              (writeFile
                (mkdirP fs (projectDir p.project_name ++ [".github", "workflows"]))
                (projectDir p.project_name ++ [".github", "workflows", "deploy.yml"]) .blob)
              p "dev")
            p "production")
          [".dry2", "helm", "django-app"])
        [".dry2", "terraform", "modules"])

/-- `init_command`, from the first filesystem effect on: ensure the root
structure, create the project directory, save the project record, create
the `dev` and `production` environments, write the workflow (and app-repo
copies), and write the quick-reference document.  The upstash region is
resolved from the `REGIONS` table (the select prompt only offers its rows). -/
def init_command (fs : FS) (p : InitParams) : FS :=
  writeFile
    (initWorkflowAndCopies
      (initEnvDir
        (initEnvDir
          (save_project_config
            (mkdirP (ensure_project_structure fs) (projectDir p.project_name))
            p.project_name
            { name := some p.project_name,
              github_repo := some p.github_repo,
              region := some p.region,
              upstash_region := some ((REGIONS.lookup p.region).getD "us-east-1"),
              domains := some [("production", p.prod_domain), ("dev", p.dev_domain)],
              environments := some [("production", ⟨"main", "large"⟩),
                                    ("dev", ⟨"develop", "small"⟩)] })
          p "dev")
        p "production")
      p)
    (projectDir p.project_name ++ ["QUICK-REFERENCE.md"]) .blob

/-! ### Path utilities for the `init` proofs -/

theorem underPath_iff_take {pre q : FsPath} :
    underPath pre q = true ↔ q.take pre.length = pre := by
  unfold underPath; exact beq_iff_eq

theorem underPath_length_le {pre q : FsPath} (h : underPath pre q = true) :
    pre.length ≤ q.length := by
  rw [underPath_iff_take] at h
  have := congrArg List.length h
  rw [List.length_take] at this
  omega

theorem append_singleton_ne (dir : FsPath) {a b : String} (h : a ≠ b) :
    dir ++ [a] ≠ dir ++ [b] := by
  intro heq
  exact h (by simpa using List.append_cancel_left heq)

theorem projectDir_length (s : String) : (projectDir s).length = 3 := by
  simp [projectDir, projectsDir]

theorem take_two_of_underPath {root q : FsPath} (h : underPath root q = true)
    (h2 : 2 ≤ root.length) : q.take 2 = root.take 2 := by
  rw [underPath_iff_take] at h
  have := congrArg (List.take 2) h
  rwa [List.take_take, Nat.min_eq_left h2] at this

theorem take_two_of_under_projectDir {name : String} {q : FsPath}
    (h : underPath (projectDir name) q = true) :
    q.take 2 = [".dry2", "projects"] := by
  have := take_two_of_underPath h (by rw [projectDir_length]; omega)
  simpa [projectDir, projectsDir] using this

theorem three_le_length_of_under_projectDir {name : String} {q : FsPath}
    (h : underPath (projectDir name) q = true) : 3 ≤ q.length := by
  have := underPath_length_le h
  rwa [projectDir_length] at this

theorem mem_inits_split {base xs q : FsPath}
    (hin : q ∈ (base ++ xs).inits) (hlen : base.length ≤ q.length) :
    ∃ k, k ≤ xs.length ∧ q = base ++ xs.take k := by
  have hpre := (List.mem_inits _ _).mp hin
  refine ⟨q.length - base.length, ?_, ?_⟩
  · have := hpre.length_le
    rw [List.length_append] at this
    omega
  · have heq : q = base.take q.length ++ xs.take (q.length - base.length) := by
      conv_lhs => rw [List.prefix_iff_eq_take.mp hpre]
      rw [List.take_append_eq_append_take]
    rwa [List.take_of_length_le hlen] at heq

theorem fileLookup_addDir (fs : FS) (p q : FsPath) :
    fileLookup (addDir fs p) q = fileLookup fs q := by
  unfold fileLookup; rw [files_addDir]

/-! ### Per-operation frame lemmas for paths inside the project directory -/

theorem files_ensure (fs : FS) : (ensure_project_structure fs).files = fs.files := by
  unfold ensure_project_structure
  rw [files_addDir, files_addDir, files_addDir]

theorem mem_dirs_ensure_of_under {name : String} {q : FsPath} (fs : FS)
    (h : underPath (projectDir name) q = true) :
    q ∈ (ensure_project_structure fs).dirs ↔ q ∈ fs.dirs := by
  have hlen := three_le_length_of_under_projectDir h
  unfold ensure_project_structure
  rw [mem_dirs_addDir, mem_dirs_addDir, mem_dirs_addDir]
  constructor
  · rintro (((hq | rfl) | rfl) | rfl)
    · exact hq
    · simp at hlen
    · simp [projectsDir] at hlen
    · simp at hlen
  · exact fun hq => Or.inl (Or.inl (Or.inl hq))

theorem mem_dirs_mkdirP_projectDir {name : String} {q : FsPath} (fs : FS)
    (h : underPath (projectDir name) q = true) :
    q ∈ (mkdirP fs (projectDir name)).dirs ↔ q ∈ fs.dirs ∨ q = projectDir name := by
  have hlen := three_le_length_of_under_projectDir h
  rw [mem_dirs_mkdirP]
  constructor
  · rintro (hq | ⟨hin, -⟩)
    · exact Or.inl hq
    · exact Or.inr (eq_of_mem_inits_of_length hin (by rw [projectDir_length]; omega))
  · rintro (hq | rfl)
    · exact Or.inl hq
    · refine Or.inr ⟨(List.mem_inits _ _).mpr (List.prefix_refl _), ?_⟩
      intro hempty
      rw [hempty] at hlen
      simp at hlen

theorem mem_inits_envdir {name env : String} {q : FsPath}
    (hin : q ∈ (projectDir name ++ [env]).inits) (hlen : 3 ≤ q.length) :
    q = projectDir name ++ [env] ∨ q = projectDir name := by
  obtain ⟨k, hk, hq⟩ := mem_inits_split hin (by rw [projectDir_length]; omega)
  simp only [List.length_singleton] at hk
  have : k = 0 ∨ k = 1 := by omega
  rcases this with rfl | rfl
  · right; simpa using hq
  · left; simpa using hq

theorem mem_dirs_initEnvDir_of_under {q : FsPath} (fs : FS) (p : InitParams) (env : String)
    (h : underPath (projectDir p.project_name) q = true) :
    q ∈ (initEnvDir fs p env).dirs ↔
      q ∈ fs.dirs ∨ q = projectDir p.project_name ++ [env] ∨ q = projectDir p.project_name := by
  have hlen := three_le_length_of_under_projectDir h
  unfold initEnvDir create_helm_values create_terraform_files
  simp only [List.foldl, dirs_writeFile, List.dropLast_concat]
  rw [mem_dirs_mkdirP]
  simp only [dirs_writeFile]
  rw [mem_dirs_mkdirP]
  simp only [dirs_writeFile]
  rw [mem_dirs_mkdirP]
  simp only [dirs_writeFile]
  rw [mem_dirs_mkdirP]
  simp only [dirs_writeFile]
  rw [mem_dirs_mkdirP, mem_dirs_addDir]
  have hself : projectDir p.project_name ++ [env] ∈ (projectDir p.project_name ++ [env]).inits :=
    (List.mem_inits _ _).mpr (List.prefix_refl _)
  have hne : projectDir p.project_name ++ [env] ≠ ([] : FsPath) := by simp
  constructor
  · rintro ((((((hq | rfl) | hin) | hin) | hin) | hin) | hin)
    · exact Or.inl hq
    · exact Or.inr (Or.inl rfl)
    all_goals exact Or.inr (mem_inits_envdir hin.1 hlen)
  · rintro (hq | rfl | rfl)
    · exact Or.inl (Or.inl (Or.inl (Or.inl (Or.inl (Or.inl hq)))))
    · exact Or.inl (Or.inl (Or.inl (Or.inl (Or.inl (Or.inr rfl)))))
    · refine Or.inr ⟨?_, ?_⟩
      · exact (List.mem_inits _ _).mpr ⟨[env], rfl⟩
      · intro hempty
        rw [hempty] at hlen
        simp at hlen

theorem fileLookup_initEnvDir_of_ne (fs : FS) (p : InitParams) (env : String) (q : FsPath)
    (h : ∀ f ∈ (["main.tf", "variables.tf", "outputs.tf", "terraform.tfvars",
                 "values.yaml"] : List String),
      q ≠ projectDir p.project_name ++ [env, f]) :
    fileLookup (initEnvDir fs p env) q = fileLookup fs q := by
  unfold initEnvDir create_helm_values create_terraform_files
  simp only [List.foldl]
  rw [fileLookup_writeFile, if_neg (by simpa using h "values.yaml" (by simp)), fileLookup_mkdirP,
      fileLookup_writeFile, if_neg (by simpa using h "terraform.tfvars" (by simp)),
      fileLookup_mkdirP,
      fileLookup_writeFile, if_neg (by simpa using h "outputs.tf" (by simp)), fileLookup_mkdirP,
      fileLookup_writeFile, if_neg (by simpa using h "variables.tf" (by simp)), fileLookup_mkdirP,
      fileLookup_writeFile, if_neg (by simpa using h "main.tf" (by simp)), fileLookup_mkdirP,
      fileLookup_addDir]

theorem fileLookup_initEnvDir_main (fs : FS) (p : InitParams) (env : String) :
    fileLookup (initEnvDir fs p env)
      (projectDir p.project_name ++ [env, "main.tf"]) = some .blob := by
  unfold initEnvDir create_helm_values create_terraform_files
  simp only [List.foldl]
  rw [fileLookup_writeFile, if_neg (by simp), fileLookup_mkdirP,
      fileLookup_writeFile, if_neg (by simp), fileLookup_mkdirP,
      fileLookup_writeFile, if_neg (by simp), fileLookup_mkdirP,
      fileLookup_writeFile, if_neg (by simp), fileLookup_mkdirP,
      fileLookup_writeFile, if_pos (by simp)]

theorem copyFold_dirs (p : InitParams) (env : String) (l : List String) (fs : FS) :
    (l.foldl (fun acc f =>
      if pathExists acc (projectDir p.project_name ++ [env, f]) = true then
        writeFile acc ([".dry2", "terraform", "environments", env] ++ [f]) .blob
      else acc) fs).dirs = fs.dirs := by
  induction l generalizing fs with
  | nil => rfl
  | cons hd tl ih =>
    rw [List.foldl_cons, ih]
    split <;> rfl

theorem copyFold_fileLookup (p : InitParams) (env : String) (l : List String) (fs : FS)
    (q : FsPath) (hq : ∀ f : String, q ≠ [".dry2", "terraform", "environments", env] ++ [f]) :
    fileLookup (l.foldl (fun acc f =>
      if pathExists acc (projectDir p.project_name ++ [env, f]) = true then
        writeFile acc ([".dry2", "terraform", "environments", env] ++ [f]) .blob
      else acc) fs) q = fileLookup fs q := by
  induction l generalizing fs with
  | nil => rfl
  | cons hd tl ih =>
    rw [List.foldl_cons, ih]
    split
    · rw [fileLookup_writeFile, if_neg (hq hd)]
    · rfl

theorem not_under_pdir_dest {name env : String} {q : FsPath}
    (h : underPath (projectDir name) q = true) (f : String) :
    q ≠ [".dry2", "terraform", "environments", env] ++ [f] := by
  intro heq
  have := take_two_of_under_projectDir h
  rw [heq] at this
  simp at this

theorem copyEnvTf_preserves_under {q : FsPath} (fs : FS) (p : InitParams) (env : String)
    (h : underPath (projectDir p.project_name) q = true) :
    (q ∈ (copyEnvTf fs p env).dirs ↔ q ∈ fs.dirs) ∧
    fileLookup (copyEnvTf fs p env) q = fileLookup fs q := by
  have hq : ∀ f : String, q ≠ [".dry2", "terraform", "environments", env] ++ [f] :=
    not_under_pdir_dest h
  have hmk : q ∈ (mkdirP fs [".dry2", "terraform", "environments", env]).dirs ↔ q ∈ fs.dirs := by
    rw [mem_dirs_mkdirP]
    constructor
    · rintro (hmem | ⟨hin, hne⟩)
      · exact hmem
      · exfalso
        have h2 := take_two_of_under_projectDir h
        have h3 := three_le_length_of_under_projectDir h
        simp at hin
        rcases hin with rfl | rfl | rfl | rfl | rfl <;> simp_all
    · exact Or.inl
  constructor
  · unfold copyEnvTf
    split
    · rw [dirs_writeFile, copyFold_dirs]
      exact hmk
    · rw [copyFold_dirs]
      exact hmk
  · unfold copyEnvTf
    split
    · rw [fileLookup_writeFile, if_neg (by simpa using hq "terraform.tfvars.example"),
        copyFold_fileLookup p env _ _ q hq, fileLookup_mkdirP]
    · rw [copyFold_fileLookup p env _ _ q hq, fileLookup_mkdirP]

theorem copyTreeTo_preserves_under {q : FsPath} (fs : FS) (root : FsPath)
    (hq1 : underPath root q = false) (hq2 : ∀ x ∈ root.inits, q ≠ x) :
    (q ∈ (copyTreeTo fs root).dirs ↔ q ∈ fs.dirs) ∧
    fileLookup (copyTreeTo fs root) q = fileLookup fs q := by
  unfold copyTreeTo
  constructor
  · rw [mem_dirs_mkdirP]
    constructor
    · rintro (hmem | ⟨hin, -⟩)
      · revert hmem
        split
        · rw [mem_dirs_removeTree]
          exact fun hmem => hmem.1
        · exact id
      · exact absurd rfl (hq2 q hin)
    · intro hmem
      left
      split
      · rw [mem_dirs_removeTree]
        exact ⟨hmem, hq1⟩
      · exact hmem
  · rw [fileLookup_mkdirP]
    split
    · rw [fileLookup_removeTree, if_neg (by simp [hq1])]
    · rfl

theorem updateGitignore_preserves {q : FsPath} (fs : FS) (hq : q ≠ [".gitignore"]) :
    (q ∈ (updateGitignore fs).dirs ↔ q ∈ fs.dirs) ∧
    fileLookup (updateGitignore fs) q = fileLookup fs q := by
  unfold updateGitignore
  split
  · split
    · exact ⟨Iff.rfl, rfl⟩
    · exact ⟨by rw [dirs_writeFile], by rw [fileLookup_writeFile, if_neg hq]⟩
  · exact ⟨by rw [dirs_writeFile], by rw [fileLookup_writeFile, if_neg hq]⟩
  · exact ⟨by rw [dirs_writeFile], by rw [fileLookup_writeFile, if_neg hq]⟩

theorem copyTreeToIf_preserves_under {q : FsPath} (b : Bool) (fs : FS) (root : FsPath)
    (hq1 : underPath root q = false) (hq2 : ∀ x ∈ root.inits, q ≠ x) :
    (q ∈ (copyTreeToIf b fs root).dirs ↔ q ∈ fs.dirs) ∧
    fileLookup (copyTreeToIf b fs root) q = fileLookup fs q := by
  unfold copyTreeToIf
  split
  · exact copyTreeTo_preserves_under fs root hq1 hq2
  · exact ⟨Iff.rfl, rfl⟩

theorem not_under_concrete_root {name : String} {q : FsPath}
    (h : underPath (projectDir name) q = true) (root : FsPath)
    (hroot : root.take 2 ≠ [".dry2", "projects"]) (h2r : 2 ≤ root.length) :
    underPath root q = false := by
  by_cases hu : underPath root q = true
  · exfalso
    have := take_two_of_underPath hu h2r
    rw [take_two_of_under_projectDir h] at this
    exact hroot this.symm
  · revert hu; cases underPath root q <;> simp

theorem not_gitignore_of_under {name : String} {q : FsPath}
    (h : underPath (projectDir name) q = true) : q ≠ [".gitignore"] := by
  intro heq
  have := three_le_length_of_under_projectDir h
  rw [heq] at this
  simp at this

theorem helm_root_inits_ne {name : String} {q : FsPath}
    (h : underPath (projectDir name) q = true) :
    ∀ x ∈ ([".dry2", "helm", "django-app"] : FsPath).inits, q ≠ x := by
  intro x hx heq
  have h2 := take_two_of_under_projectDir h
  have h3 := three_le_length_of_under_projectDir h
  subst heq
  simp at hx
  rcases hx with rfl | rfl | rfl | rfl <;> simp_all

theorem modules_root_inits_ne {name : String} {q : FsPath}
    (h : underPath (projectDir name) q = true) :
    ∀ x ∈ ([".dry2", "terraform", "modules"] : FsPath).inits, q ≠ x := by
  intro x hx heq
  have h2 := take_two_of_under_projectDir h
  have h3 := three_le_length_of_under_projectDir h
  subst heq
  simp at hx
  rcases hx with rfl | rfl | rfl | rfl <;> simp_all

theorem mem_inits_wfdir {name : String} {q : FsPath}
    (hin : q ∈ (projectDir name ++ [".github", "workflows"]).inits) (hlen : 3 ≤ q.length) :
    q = projectDir name ∨ q = projectDir name ++ [".github"] ∨
      q = projectDir name ++ [".github", "workflows"] := by
  obtain ⟨k, hk, hq⟩ := mem_inits_split hin (by rw [projectDir_length]; omega)
  have hk2 : k ≤ 2 := by simpa using hk
  have : k = 0 ∨ k = 1 ∨ k = 2 := by omega
  rcases this with rfl | rfl | rfl
  · left; simpa using hq
  · right; left; simpa using hq
  · right; right; simpa using hq

theorem workflowCopies_dirs_under {q : FsPath} (fs : FS) (p : InitParams)
    (h : underPath (projectDir p.project_name) q = true) :
    q ∈ (initWorkflowAndCopies fs p).dirs ↔
      q ∈ fs.dirs ∨ (p.is_django_app = false ∧
        (q = projectDir p.project_name ∨
         q = projectDir p.project_name ++ [".github"] ∨
         q = projectDir p.project_name ++ [".github", "workflows"])) := by
  have h2 := take_two_of_under_projectDir h
  have h3 := three_le_length_of_under_projectDir h
  unfold initWorkflowAndCopies
  by_cases hd : p.is_django_app = true
  · rw [if_pos hd]
    rw [dirs_writeFile, mem_dirs_mkdirP]
    constructor
    · rintro (hmem | ⟨hin, hne⟩)
      · exact Or.inl hmem
      · exfalso
        simp at hin
        rcases hin with rfl | rfl | rfl <;> simp_all
    · rintro (hmem | ⟨hdj, -⟩)
      · exact Or.inl hmem
      · rw [hd] at hdj; cases hdj
  · rw [if_neg hd]
    have hd' : p.is_django_app = false := by revert hd; cases p.is_django_app <;> simp
    rw [(updateGitignore_preserves _ (not_gitignore_of_under h)).1,
        (copyTreeToIf_preserves_under _ _ _
          (not_under_concrete_root h _ (by decide) (by decide))
          (modules_root_inits_ne h)).1,
        (copyTreeToIf_preserves_under _ _ _
          (not_under_concrete_root h _ (by decide) (by decide))
          (helm_root_inits_ne h)).1,
        (copyEnvTf_preserves_under _ p "production" h).1,
        (copyEnvTf_preserves_under _ p "dev" h).1,
        dirs_writeFile, mem_dirs_mkdirP]
    constructor
    · rintro (hmem | ⟨hin, -⟩)
      · exact Or.inl hmem
      · exact Or.inr ⟨hd', mem_inits_wfdir hin h3⟩
    · rintro (hmem | ⟨-, hcases⟩)
      · exact Or.inl hmem
      · refine Or.inr ⟨?_, ?_⟩
        · rcases hcases with rfl | rfl | rfl
          · exact (List.mem_inits _ _).mpr ⟨[".github", "workflows"], rfl⟩
          · exact (List.mem_inits _ _).mpr ⟨["workflows"], by simp⟩
          · exact (List.mem_inits _ _).mpr (List.prefix_refl _)
        · rcases hcases with rfl | rfl | rfl <;> (intro hempty; rw [hempty] at h3; simp at h3)

theorem workflowCopies_fileLookup_under {q : FsPath} (fs : FS) (p : InitParams)
    (h : underPath (projectDir p.project_name) q = true)
    (hdep : q ≠ projectDir p.project_name ++ [".github", "workflows", "deploy.yml"]) :
    fileLookup (initWorkflowAndCopies fs p) q = fileLookup fs q := by
  have h2 := take_two_of_under_projectDir h
  unfold initWorkflowAndCopies
  by_cases hd : p.is_django_app = true
  · rw [if_pos hd]
    rw [fileLookup_writeFile, if_neg ?hne, fileLookup_mkdirP]
    case hne =>
      intro heq
      rw [heq] at h2
      simp at h2
  · rw [if_neg hd]
    rw [(updateGitignore_preserves _ (not_gitignore_of_under h)).2,
        (copyTreeToIf_preserves_under _ _ _
          (not_under_concrete_root h _ (by decide) (by decide))
          (modules_root_inits_ne h)).2,
        (copyTreeToIf_preserves_under _ _ _
          (not_under_concrete_root h _ (by decide) (by decide))
          (helm_root_inits_ne h)).2,
        (copyEnvTf_preserves_under _ p "production" h).2,
        (copyEnvTf_preserves_under _ p "dev" h).2,
        fileLookup_writeFile, if_neg hdep, fileLookup_mkdirP]

theorem underPath_refl (p : FsPath) : underPath p p = true := by
  rw [underPath_iff_take, List.take_length]

theorem underPath_append_self (p rest : FsPath) : underPath p (p ++ rest) = true := by
  rw [underPath_iff_take, List.take_left]

theorem nodup_dirs_addDir {fs : FS} (h : fs.dirs.Nodup) (p : FsPath) :
    (addDir fs p).dirs.Nodup := by
  unfold addDir
  split
  · exact h
  · rename_i hmem
    simp [List.nodup_append, h, hmem]

theorem nodup_dirs_foldl_addDir {fs : FS} (h : fs.dirs.Nodup) (l : List FsPath) :
    (l.foldl addDir fs).dirs.Nodup := by
  induction l generalizing fs with
  | nil => exact h
  | cons hd tl ih => exact ih (nodup_dirs_addDir h hd)

theorem nodup_dirs_mkdirP {fs : FS} (h : fs.dirs.Nodup) (p : FsPath) :
    (mkdirP fs p).dirs.Nodup :=
  nodup_dirs_foldl_addDir h _

theorem nodup_dirs_writeFile {fs : FS} {q : FsPath} {d : FileData} (h : fs.dirs.Nodup) :
    (writeFile fs q d).dirs.Nodup := h

theorem nodup_dirs_initEnvDir {fs : FS} (h : fs.dirs.Nodup) (p : InitParams) (env : String) :
    (initEnvDir fs p env).dirs.Nodup := by
  unfold initEnvDir create_helm_values create_terraform_files
  simp only [List.foldl]
  exact nodup_dirs_writeFile (nodup_dirs_mkdirP (nodup_dirs_writeFile (nodup_dirs_mkdirP
    (nodup_dirs_writeFile (nodup_dirs_mkdirP (nodup_dirs_writeFile (nodup_dirs_mkdirP
      (nodup_dirs_writeFile (nodup_dirs_mkdirP (nodup_dirs_addDir h _) _)) _)) _)) _)) _)

theorem nodup_dirs_copyEnvTf {fs : FS} (h : fs.dirs.Nodup) (p : InitParams) (env : String) :
    (copyEnvTf fs p env).dirs.Nodup := by
  unfold copyEnvTf
  split
  · rw [dirs_writeFile, copyFold_dirs]
    exact nodup_dirs_mkdirP h _
  · rw [copyFold_dirs]
    exact nodup_dirs_mkdirP h _

theorem nodup_dirs_copyTreeToIf {fs : FS} (h : fs.dirs.Nodup) (b : Bool) (dest : FsPath) :
    (copyTreeToIf b fs dest).dirs.Nodup := by
  unfold copyTreeToIf copyTreeTo
  split
  · split
    · exact nodup_dirs_mkdirP (List.Nodup.filter _ h) _
    · exact nodup_dirs_mkdirP h _
  · exact h

theorem nodup_dirs_updateGitignore {fs : FS} (h : fs.dirs.Nodup) :
    (updateGitignore fs).dirs.Nodup := by
  unfold updateGitignore
  split
  · split
    · exact h
    · exact h
  · exact h
  · exact h

theorem nodup_dirs_workflowCopies {fs : FS} (h : fs.dirs.Nodup) (p : InitParams) :
    (initWorkflowAndCopies fs p).dirs.Nodup := by
  unfold initWorkflowAndCopies
  split
  · rw [dirs_writeFile]
    exact nodup_dirs_mkdirP h _
  · exact nodup_dirs_updateGitignore (nodup_dirs_copyTreeToIf (nodup_dirs_copyTreeToIf
      (nodup_dirs_copyEnvTf (nodup_dirs_copyEnvTf
        (nodup_dirs_writeFile (nodup_dirs_mkdirP h _)) p "dev") p "production") _ _) _ _)

theorem nodup_dirs_ensure {fs : FS} (h : fs.dirs.Nodup) :
    (ensure_project_structure fs).dirs.Nodup :=
  nodup_dirs_addDir (nodup_dirs_addDir (nodup_dirs_addDir h _) _) _

theorem nodup_dirs_init_command {fs : FS} (h : fs.dirs.Nodup) (p : InitParams) :
    (init_command fs p).dirs.Nodup := by
  unfold init_command save_project_config
  exact nodup_dirs_writeFile (nodup_dirs_workflowCopies (nodup_dirs_initEnvDir
    (nodup_dirs_initEnvDir
      (nodup_dirs_writeFile (nodup_dirs_mkdirP (nodup_dirs_mkdirP (nodup_dirs_ensure h) _) _))
      p "dev") p "production") p)

theorem childDirs_fn_eq {p : FsPath} {d : FsPath} {n : String}
    (h : (if d ≠ [] ∧ d.dropLast = p then d.getLast? else none) = some n) :
    d = p ++ [n] := by
  split at h
  · rename_i hne
    obtain ⟨hdne, hdrop⟩ := hne
    rw [List.getLast?_eq_getLast d hdne] at h
    have hn : d.getLast hdne = n := by injection h
    have hdeq : d.dropLast ++ [d.getLast hdne] = d := List.dropLast_append_getLast hdne
    rw [hdrop, hn] at hdeq
    exact hdeq.symm
  · cases h

theorem childDirs_nodup {fs : FS} (h : fs.dirs.Nodup) (p : FsPath) :
    (childDirs fs p).Nodup := by
  unfold childDirs
  refine h.filterMap ?_
  intro a a' b hb hb'
  simp only [Option.mem_def] at hb hb'
  rw [childDirs_fn_eq hb, childDirs_fn_eq hb']

theorem projectDir_append_env_file (project e f : String) :
    get_env_dir project e ++ [f] = projectDir project ++ [e, f] := by
  simp [projectDir, get_env_dir, projectsDir]

/-- Claim C8: on a store where the project directory does not yet exist (no
path under it is present), `init_command` creates exactly the two
environments `dev` and `production` — the project's environment listing
afterwards contains a name iff it is `dev` or `production`, and has length
two — and saves a project record whose environments mapping is
`{production: {branch: main, profile: large}, dev: {branch: develop,
profile: small}}`. -/
theorem init_command_creates (fs : FS) (p : InitParams)
    (hfresh : ∀ q : FsPath, underPath (projectDir p.project_name) q = true →
      pathExists fs q = false)
    (hnodup : fs.dirs.Nodup) :
    (∀ n : String, n ∈ list_environments (init_command fs p) p.project_name ↔
      (n = "dev" ∨ n = "production")) ∧
    (list_environments (init_command fs p) p.project_name).length = 2 ∧
    (load_project_config (init_command fs p) p.project_name).environments
      = some [("production", ⟨"main", "large"⟩), ("dev", ⟨"develop", "small"⟩)] := by
  set fs2 := save_project_config
      (mkdirP (ensure_project_structure fs) (projectDir p.project_name)) p.project_name
      { name := some p.project_name, github_repo := some p.github_repo,
        region := some p.region,
        upstash_region := some ((REGIONS.lookup p.region).getD "us-east-1"),
        domains := some [("production", p.prod_domain), ("dev", p.dev_domain)],
        environments := some [("production", ⟨"main", "large"⟩),
                              ("dev", ⟨"develop", "small"⟩)] }
    with hfs2
  set fs3 := initEnvDir fs2 p "dev" with hfs3
  set fs4 := initEnvDir fs3 p "production" with hfs4
  set fs5 := initWorkflowAndCopies fs4 p with hfs5
  have hInit : init_command fs p
      = writeFile fs5 (projectDir p.project_name ++ ["QUICK-REFERENCE.md"]) .blob := by
    rw [hfs5, hfs4, hfs3, hfs2]
    rfl
  -- directory membership under the project directory, through every stage
  have hdirs5 : ∀ q : FsPath, underPath (projectDir p.project_name) q = true →
      (q ∈ fs5.dirs ↔
        q ∈ fs.dirs ∨ q = projectDir p.project_name
          ∨ q = projectDir p.project_name ++ ["dev"]
          ∨ q = projectDir p.project_name ++ ["production"]
          ∨ (p.is_django_app = false ∧
             (q = projectDir p.project_name ++ [".github"] ∨
              q = projectDir p.project_name ++ [".github", "workflows"]))) := by
    intro q hq
    rw [hfs5, workflowCopies_dirs_under _ _ hq, hfs4,
        mem_dirs_initEnvDir_of_under _ _ _ hq, hfs3,
        mem_dirs_initEnvDir_of_under _ _ _ hq, hfs2]
    unfold save_project_config
    rw [dirs_writeFile, mem_dirs_mkdirP_projectDir _ hq, mem_dirs_mkdirP_projectDir _ hq,
        mem_dirs_ensure_of_under _ hq]
    tauto
  -- file lookups under the project directory, through every stage
  have hlook5 : ∀ q : FsPath, underPath (projectDir p.project_name) q = true →
      (∀ f ∈ (["main.tf", "variables.tf", "outputs.tf", "terraform.tfvars",
               "values.yaml"] : List String),
        q ≠ projectDir p.project_name ++ ["dev", f]) →
      (∀ f ∈ (["main.tf", "variables.tf", "outputs.tf", "terraform.tfvars",
               "values.yaml"] : List String),
        q ≠ projectDir p.project_name ++ ["production", f]) →
      q ≠ projectDir p.project_name ++ [".github", "workflows", "deploy.yml"] →
      q ≠ projectDir p.project_name ++ ["config.yaml"] →
      fileLookup fs5 q = fileLookup fs q := by
    intro q hq hdev hprod hdep hcfg
    rw [hfs5, workflowCopies_fileLookup_under _ _ hq hdep, hfs4,
        fileLookup_initEnvDir_of_ne _ _ _ _ hprod, hfs3,
        fileLookup_initEnvDir_of_ne _ _ _ _ hdev, hfs2]
    unfold save_project_config
    rw [fileLookup_writeFile, if_neg hcfg, fileLookup_mkdirP, fileLookup_mkdirP]
    unfold fileLookup
    rw [files_ensure]
  -- the two markers exist afterwards
  have hmdev : fileLookup fs5 (projectDir p.project_name ++ ["dev", "main.tf"])
      = some .blob := by
    rw [hfs5, workflowCopies_fileLookup_under _ _ (underPath_append_self _ _)
        (by intro heq; have := congrArg List.length heq; simp at this),
      hfs4, fileLookup_initEnvDir_of_ne _ _ _ _
        (by intro f hf heq
            have := List.append_cancel_left heq
            simp at this),
      hfs3]
    exact fileLookup_initEnvDir_main fs2 p "dev"
  have hmprod : fileLookup fs5 (projectDir p.project_name ++ ["production", "main.tf"])
      = some .blob := by
    rw [hfs5, workflowCopies_fileLookup_under _ _ (underPath_append_self _ _)
        (by intro heq; have := congrArg List.length heq; simp at this),
      hfs4]
    exact fileLookup_initEnvDir_main fs3 p "production"
  -- the saved record survives the later stages
  have hcfg5 : fileLookup fs5 (projectDir p.project_name ++ ["config.yaml"])
      = some (.yamlConfig
        { name := some p.project_name, github_repo := some p.github_repo,
          region := some p.region,
          upstash_region := some ((REGIONS.lookup p.region).getD "us-east-1"),
          domains := some [("production", p.prod_domain), ("dev", p.dev_domain)],
          environments := some [("production", ⟨"main", "large"⟩),
                                ("dev", ⟨"develop", "small"⟩)] }) := by
    rw [hfs5, workflowCopies_fileLookup_under _ _ (underPath_append_self _ _)
        (by intro heq; have := congrArg List.length heq; simp at this),
      hfs4, fileLookup_initEnvDir_of_ne _ _ _ _
        (by intro f hf heq
            have := congrArg List.length heq
            simp at this),
      hfs3, fileLookup_initEnvDir_of_ne _ _ _ _
        (by intro f hf heq
            have := congrArg List.length heq
            simp at this),
      hfs2]
    unfold save_project_config
    rw [fileLookup_writeFile, if_pos rfl]
  -- lift the stage facts through the final quick-reference write
  have hIdirs : ∀ q : FsPath, underPath (projectDir p.project_name) q = true →
      (q ∈ (init_command fs p).dirs ↔
        q ∈ fs.dirs ∨ q = projectDir p.project_name
          ∨ q = projectDir p.project_name ++ ["dev"]
          ∨ q = projectDir p.project_name ++ ["production"]
          ∨ (p.is_django_app = false ∧
             (q = projectDir p.project_name ++ [".github"] ∨
              q = projectDir p.project_name ++ [".github", "workflows"]))) := by
    intro q hq
    rw [hInit, dirs_writeFile]
    exact hdirs5 q hq
  have hImdev : fileLookup (init_command fs p)
      (projectDir p.project_name ++ ["dev", "main.tf"]) = some .blob := by
    rw [hInit, fileLookup_writeFile,
      if_neg (by intro heq; have := congrArg List.length heq; simp at this)]
    exact hmdev
  have hImprod : fileLookup (init_command fs p)
      (projectDir p.project_name ++ ["production", "main.tf"]) = some .blob := by
    rw [hInit, fileLookup_writeFile,
      if_neg (by intro heq; have := congrArg List.length heq; simp at this)]
    exact hmprod
  have hIcfg : fileLookup (init_command fs p)
      (projectDir p.project_name ++ ["config.yaml"])
      = some (.yamlConfig
        { name := some p.project_name, github_repo := some p.github_repo,
          region := some p.region,
          upstash_region := some ((REGIONS.lookup p.region).getD "us-east-1"),
          domains := some [("production", p.prod_domain), ("dev", p.dev_domain)],
          environments := some [("production", ⟨"main", "large"⟩),
                                ("dev", ⟨"develop", "small"⟩)] }) := by
    rw [hInit, fileLookup_writeFile,
      if_neg (by intro heq; have := List.append_cancel_left heq; simp at this)]
    exact hcfg5
  -- claim that nothing under the fresh project directory was in fs
  have hbase : ∀ q : FsPath, underPath (projectDir p.project_name) q = true →
      q ∉ fs.dirs ∧ fileLookup fs q = none := by
    intro q hq
    have := hfresh q hq
    simp only [pathExists, Bool.or_eq_false_iff, decide_eq_false_iff_not] at this
    exact ⟨this.1, Option.not_isSome_iff_eq_none.mp (by simp [this.2])⟩
  have hpdirI : pathExists (init_command fs p) (projectDir p.project_name) = true := by
    have hm : projectDir p.project_name ∈ (init_command fs p).dirs :=
      (hIdirs _ (underPath_refl _)).mpr (Or.inr (Or.inl rfl))
    simp [pathExists, hm]
  have hmemiff : ∀ n : String,
      n ∈ list_environments (init_command fs p) p.project_name ↔
        (n = "dev" ∨ n = "production") := by
    intro n
    rw [mem_list_environments]
    constructor
    · rintro ⟨-, hmem, hdot, hmark⟩
      rcases (hIdirs _ (underPath_append_self _ _)).mp hmem with
        hmem0 | heq | heq | heq | ⟨-, heq | heq⟩
      · exact absurd hmem0 (hbase _ (underPath_append_self _ _)).1
      · exact absurd (congrArg List.length heq) (by simp)
      · exact Or.inl (by simpa using List.append_cancel_left heq)
      · exact Or.inr (by simpa using List.append_cancel_left heq)
      · have : n = ".github" := by simpa using List.append_cancel_left heq
        rw [this] at hdot
        exact absurd hdot (by decide)
      · exact absurd (congrArg List.length heq) (by simp)
    · rintro (rfl | rfl)
      · refine ⟨hpdirI, (hIdirs _ (underPath_append_self _ _)).mpr
          (Or.inr (Or.inr (Or.inl rfl))), by decide, ?_⟩
        rw [projectDir_append_env_file]
        simp [pathExists, hImdev]
      · refine ⟨hpdirI, (hIdirs _ (underPath_append_self _ _)).mpr
          (Or.inr (Or.inr (Or.inr (Or.inl rfl)))), by decide, ?_⟩
        rw [projectDir_append_env_file]
        simp [pathExists, hImprod]
  refine ⟨hmemiff, ?_, ?_⟩
  · have hnodupI : (list_environments (init_command fs p) p.project_name).Nodup := by
      unfold list_environments
      split
      · exact List.nodup_nil
      · exact List.Nodup.filter _ (childDirs_nodup (nodup_dirs_init_command hnodup p) _)
    have htf : (list_environments (init_command fs p) p.project_name).toFinset
        = ({"dev", "production"} : Finset String) := by
      ext x
      simp only [List.mem_toFinset, Finset.mem_insert, Finset.mem_singleton]
      exact hmemiff x
    have hcard := List.toFinset_card_of_nodup hnodupI
    rw [htf, Finset.card_pair (by decide)] at hcard
    omega
  · unfold load_project_config
    rw [hIcfg]

/-- The spec's `init` scenario parameters: project `acme`, region `NYC1`. -/
def acmeInit : InitParams :=
  { project_name := "acme", github_repo := "acme-org/acme", region := "NYC1",
    prod_domain := "acme.example.com", dev_domain := "dev.acme.example.com",
    is_django_app := false, helmChartAvailable := true, modulesAvailable := true }

/-- Witness for C8: initializing `acme` on an empty store yields exactly the
environments `dev` and `production` and the expected record. -/
theorem init_command_creates_witness :
    (list_environments (init_command ⟨[], []⟩ acmeInit) "acme").length = 2 ∧
    "dev" ∈ list_environments (init_command ⟨[], []⟩ acmeInit) "acme" ∧
    (load_project_config (init_command ⟨[], []⟩ acmeInit) "acme").environments
      = some [("production", ⟨"main", "large"⟩), ("dev", ⟨"develop", "small"⟩)] := by
  have h := init_command_creates ⟨[], []⟩ acmeInit (fun q _ => rfl) List.nodup_nil
  exact ⟨h.2.1, (h.1 "dev").mpr (Or.inl rfl), h.2.2⟩

end Dry2
